import Mathlib

/-!
# Verification of the wallet-balance-cli core logic

This file gives a shallow embedding, in Lean 4, of the pure core of the
`wallet-balance-cli` Rust repository: unit conversion (`wei_to_eth`, the
floating-point satoshi/sun conversions), per-chain address validation
(EVM hex format, Bitcoin syntactic check, Tron Base58Check with
double-SHA256), the `Network` enumeration, and the response-processing
part of each chain client's `get_balance` (with the network interaction
modelled as an explicit response argument).

Modelling conventions:
* Rust `String`/`&str` values are modelled as `List Char`; `str::len()`
  (a count of UTF-8 bytes) is modelled by `utf8Len`, the sum of the
  UTF-8 sizes of the characters.
* Rust's `str::to_lowercase`/`char::is_whitespace` are modelled by their
  ASCII restrictions (`lowerChar`, `wsChar`); all inputs relevant to the
  validators are ASCII, where the two coincide.
* Unsigned machine integers (`u64`, `u128`) are modelled as `ℕ`;
  where wrap-around or saturation matters it is made explicit.
* `anyhow::Result<T>` is modelled as `Except String T`, carrying the
  formatted error message.
* `f64` values are modelled exactly as significand/exponent pairs of
  integers (an IEEE-754 binary64 value is a dyadic rational), with
  round-to-nearest-ties-to-even rounding; see `roundSigDiv`.
-/

deriving instance DecidableEq for Except

/-! ## Decimal digit strings -/

/-- The decimal digit character for a digit value `d < 10`. -/
def digitChar (d : ℕ) : Char := Char.ofNat (48 + d)

/-- Little-endian base-`b` digits of `n`, with explicit fuel so that the
kernel can evaluate it (least significant digit first; `[]` for `0`). -/
def digitsF (b : ℕ) : ℕ → ℕ → List ℕ
  | 0, _ => []
  | fuel + 1, n => if n = 0 then [] else n % b :: digitsF b fuel (n / b)

/-- The decimal-string rendering of `n`, as produced by Rust's `Display`
for unsigned integers: most significant digit first, `"0"` for zero. -/
def natToDecChars (n : ℕ) : List Char :=
  if n = 0 then ['0'] else ((digitsF 10 n n).map digitChar).reverse

/-- The value of a big-endian list of decimal digit characters, reading
`'0'..'9'` as `0..9` (junk on other characters). -/
def charsVal (cs : List Char) : ℕ :=
  cs.foldl (fun a c => a * 10 + (c.toNat - 48)) 0

/-- A decimal digit character test, by character code. -/
def isDigitChar (c : Char) : Bool := 48 ≤ c.toNat && c.toNat ≤ 57

/-! ## Padding, trimming, and parsing decimal strings -/

/-- Left-pad a character list with `'0'` up to width `w`, as Rust's
`format("{:0w}")` does for decimal renderings no wider than `w`. -/
def padZeros (w : ℕ) (cs : List Char) : List Char :=
  List.replicate (w - cs.length) '0' ++ cs

/-- Strip all trailing `'0'` characters, as Rust's
`trim_end_matches('0')` does. -/
def trimTrailing0 (cs : List Char) : List Char :=
  (cs.reverse.dropWhile (· = '0')).reverse

/-- The digit value of a character: `some d` for `'0'..'9'`, else `none`. -/
def digitVal? (c : Char) : Option ℕ :=
  if isDigitChar c then some (c.toNat - 48) else none

/-- Accumulating worker for `parseDigits?`. -/
def parseDigitsGo : ℕ → List Char → Option ℕ
  | a, [] => some a
  | a, c :: cs => if isDigitChar c then parseDigitsGo (a * 10 + (c.toNat - 48)) cs else none

/-- Parse a non-empty all-digit character list into a natural number. -/
def parseDigits? (cs : List Char) : Option ℕ :=
  if cs.isEmpty then none else parseDigitsGo 0 cs

/-- Parse a (non-negative) plain decimal literal, `digits` or
`digits '.' digits`, into an integer numerator and a power-of-ten
fractional length: the represented rational is `n / 10 ^ k` for
`parseDec? cs = some (n, k)`. -/
def parseDec? (cs : List Char) : Option (ℕ × ℕ) :=
  let ip := cs.takeWhile (· ≠ '.')
  match cs.dropWhile (· ≠ '.') with
  | [] => (parseDigits? ip).map (fun n => (n, 0))
  | '.' :: fp =>
    if '.' ∈ fp then none
    else do
      let w ← parseDigits? ip
      let f ← parseDigits? fp
      pure (w * 10 ^ fp.length + f, fp.length)
  | _ => none

/-- The rational value denoted by a decimal string, if it parses. -/
def parseRat? (cs : List Char) : Option ℚ :=
  (parseDec? cs).map (fun p => (p.1 : ℚ) / 10 ^ p.2)

/-! ## Rust string primitives on `List Char` -/

/-- `str::len()`: the UTF-8 byte length of a string. -/
def utf8Len (cs : List Char) : ℕ := (cs.map Char.utf8Size).sum

/-- `starts_with`: the string begins with the given character sequence. -/
def startsWithL (pre cs : List Char) : Bool := cs.take pre.length = pre

/-- ASCII lower-casing of one character, modelling `char::to_lowercase`
on the inputs this program meets (on non-ASCII letters Rust applies the
full Unicode mapping; every character accepted by the validators is
ASCII, where the two agree). -/
def lowerChar (c : Char) : Char :=
  if 65 ≤ c.toNat ∧ c.toNat ≤ 90 then Char.ofNat (c.toNat + 32) else c

/-- `str::to_lowercase`, character-wise (see `lowerChar`). -/
def lowerStr (cs : List Char) : List Char := cs.map lowerChar

/-- ASCII whitespace, modelling `char::is_whitespace` on the ASCII
range (Rust also trims non-ASCII Unicode whitespace). -/
def wsChar (c : Char) : Bool := c = ' ' || c = '\t' || c = '\n' || c = '\r'

/-- `str::trim`: remove leading and trailing whitespace. -/
def trimChars (cs : List Char) : List Char :=
  ((cs.dropWhile wsChar).reverse.dropWhile wsChar).reverse

/-- The 22 ASCII hexadecimal digit characters; `c ∈ asciiHexDigits`
models Rust's `char::is_ascii_hexdigit`. -/
def asciiHexDigits : List Char :=
  "0123456789abcdefABCDEF".data

/-- `char::is_ascii_hexdigit`. -/
def isHexDigitChar (c : Char) : Bool := asciiHexDigits.contains c

/-- The value of an ASCII hex digit (`none` otherwise). -/
def hexVal? (c : Char) : Option ℕ :=
  if 48 ≤ c.toNat ∧ c.toNat ≤ 57 then some (c.toNat - 48)
  else if 97 ≤ c.toNat ∧ c.toNat ≤ 102 then some (c.toNat - 87)
  else if 65 ≤ c.toNat ∧ c.toNat ≤ 70 then some (c.toNat - 55)
  else none

/-! ## Exact model of the `f64` arithmetic used by the Bitcoin and Tron clients

An IEEE-754 binary64 value in the normal range is a dyadic rational
`sig * 2 ^ ex` with `2^52 ≤ sig < 2^53` (or zero).  `u64 as f64` casts
and `f64` division both round the exact result to nearest, ties to
even; Rust's `format("{:.p}")` prints the (exact) value of the double
rounded to `p` decimal places, ties to even.  All quantities this
program feeds through `f64` are nonnegative and far from the subnormal
and overflow ranges, so this significand/exponent model is exact. -/

/-- `⌊log2 n⌋` via explicit fuel (kernel-reducible; junk for `n = 0`). -/
def log2F : ℕ → ℕ → ℕ
  | 0, _ => 0
  | f + 1, n => if n ≤ 1 then 0 else log2F f (n / 2) + 1

/-- Round the fraction `a / b` to the nearest integer, ties to even. -/
def roundHalfEvenDiv (a b : ℕ) : ℕ :=
  let q := a / b
  let r := a % b
  if 2 * r < b then q
  else if b < 2 * r then q + 1
  else if q % 2 = 0 then q else q + 1

/-- A (nonnegative) binary64 value: significand and binary exponent,
denoting `sig * 2 ^ ex`. -/
abbrev F64 := ℕ × ℤ

/-- The exact rational value of a modelled `f64`. -/
def f64Val (x : F64) : ℚ := (x.1 : ℚ) * 2 ^ x.2

/-- Round the exact fraction `a / b` (with `a, b ≥ 1`) to a binary64:
a 53-bit significand and exponent, rounding to nearest, ties to even. -/
def roundSigDiv (a b : ℕ) : F64 :=
  if a = 0 then (0, 0)
  else
    let E : ℤ :=
      if b ≤ a then (log2F (a / b) (a / b) : ℤ)
      else
        let k := log2F (b / a) (b / a)
        if a * 2 ^ k = b then -(k : ℤ) else -(k : ℤ) - 1
    let sh : ℤ := 52 - E
    let m : ℕ :=
      if 0 ≤ sh then roundHalfEvenDiv (a * 2 ^ sh.toNat) b
      else roundHalfEvenDiv a (b * 2 ^ (-sh).toNat)
    (m, E - 52)

/-- `u64 as f64` (also exact small constants like `100_000_000.0`). -/
def f64OfNat (n : ℕ) : F64 := roundSigDiv n 1

/-- `f64` division, correctly rounded. -/
def f64Div (x y : F64) : F64 :=
  let d : ℤ := x.2 - y.2
  if 0 ≤ d then roundSigDiv (x.1 * 2 ^ d.toNat) y.1
  else roundSigDiv x.1 (y.1 * 2 ^ (-d).toNat)

/-- `format("{:.p}", v)` for a nonnegative `f64` `v` and `p ≥ 1`:
the exact value rounded to `p` decimal places (ties to even), printed
with exactly `p` fractional digits. -/
def fmtF64 (p : ℕ) (x : F64) : List Char :=
  let scaled : ℕ :=
    if 0 ≤ x.2 then x.1 * 2 ^ x.2.toNat * 10 ^ p
    else roundHalfEvenDiv (x.1 * 10 ^ p) (2 ^ (-x.2).toNat)
  if p = 0 then natToDecChars scaled
  else natToDecChars (scaled / 10 ^ p) ++ '.' :: padZeros p (natToDecChars (scaled % 10 ^ p))

/-! ## Shared data model (`src/lib.rs`) -/

/-- `WalletBalance` (`src/lib.rs`): the result record shared by all
chain clients. -/
structure WalletBalance where
  address : List Char
  balance : List Char
  network : List Char
  denomination : List Char
deriving DecidableEq, Repr

/-- `WalletBalance::new`. -/
def WalletBalance.new (address balance network denomination : List Char) : WalletBalance :=
  ⟨address, balance, network, denomination⟩

/-- `Network` (`src/lib.rs` lines 34-38): the enumeration as defined in
the source has exactly the two variants `Bitcoin` and `Ethereum`. -/
inductive Network where
  | Bitcoin
  | Ethereum
deriving DecidableEq, Repr

/-- `impl Display for Network` (`src/lib.rs`). -/
def Network.toStr : Network → List Char
  | .Bitcoin => "bitcoin".data
  | .Ethereum => "ethereum".data

/-- `impl FromStr for Network` (`src/lib.rs`): lower-case the token and
match it against the canonical names and aliases. -/
def Network.fromStr (s : List Char) : Except String Network :=
  if lowerStr s = "bitcoin".data ∨ lowerStr s = "btc".data then .ok .Bitcoin
  else if lowerStr s = "ethereum".data ∨ lowerStr s = "eth".data then .ok .Ethereum
  else .error ("Unsupported network: " ++ String.mk s)

/-- The outcome of one HTTP round trip, as seen by a chain client after
the transport layer: the send can fail, the status can be non-2xx
(carrying a body), the body can fail to deserialize, or a typed
response is obtained.  Passing this as an explicit argument makes each
`get_balance` a pure function of its address and of the network's
answer. -/
inductive NetResponse (α : Type) where
  | sendFailure
  | badStatus (status : ℕ) (body : List Char)
  | badJson
  | parsed (value : α)

/-! ## SHA-256 and Base58 (dependencies `sha2` and `base58` of the Tron validator)

A byte is an element of `List ℕ` kept below 256.  `sha256` is the
standard FIPS 180-4 algorithm, written over `ℕ` with explicit
`% 2 ^ 32` reductions. -/

/-- Rotate a 32-bit word right by `n` (for `0 < n < 32`). -/
def rotr32 (n x : ℕ) : ℕ := (x / 2 ^ n + x % 2 ^ n * 2 ^ (32 - n)) % 2 ^ 32

/-- The SHA-256 round constants. -/
def shaK : List ℕ :=
  [1116352408, 1899447441, 3049323471, 3921009573, 961987163,
   1508970993, 2453635748, 2870763221, 3624381080, 310598401,
   607225278, 1426881987, 1925078388, 2162078206, 2614888103,
   3248222580, 3835390401, 4022224774, 264347078, 604807628,
   770255983, 1249150122, 1555081692, 1996064986, 2554220882,
   2821834349, 2952996808, 3210313671, 3336571891, 3584528711,
   113926993, 338241895, 666307205, 773529912, 1294757372,
   1396182291, 1695183700, 1986661051, 2177026350, 2456956037,
   2730485921, 2820302411, 3259730800, 3345764771, 3516065817,
   3600352804, 4094571909, 275423344, 430227734, 506948616,
   659060556, 883997877, 958139571, 1322822218, 1537002063,
   1747873779, 1955562222, 2024104815, 2227730452, 2361852424,
   2428436474, 2756734187, 3204031479, 3329325298]

/-- The SHA-256 initial hash state. -/
def shaH0 : List ℕ :=
  [1779033703, 3144134277, 1013904242, 2773480762,
   1359893119, 2600822924, 528734635, 1541459225]

/-- Big-endian byte rendering of `n` in exactly `k` bytes. -/
def beBytes (k n : ℕ) : List ℕ :=
  (List.range k).map (fun i => n / 256 ^ (k - 1 - i) % 256)

/-- Group a byte list into big-endian 32-bit words. -/
def toWords : List ℕ → List ℕ
  | b0 :: b1 :: b2 :: b3 :: rest => (((b0 * 256 + b1) * 256 + b2) * 256 + b3) :: toWords rest
  | _ => []

/-- Extend a 16-word message block to the 64-word schedule. -/
def extendSched : ℕ → List ℕ → List ℕ
  | 0, w => w
  | f + 1, w =>
    let l := w.length
    let s0 :=
      let x := w.getD (l - 15) 0
      rotr32 7 x ^^^ rotr32 18 x ^^^ x / 2 ^ 3
    let s1 :=
      let x := w.getD (l - 2) 0
      rotr32 17 x ^^^ rotr32 19 x ^^^ x / 2 ^ 10
    extendSched f (w ++ [(w.getD (l - 16) 0 + s0 + w.getD (l - 7) 0 + s1) % 2 ^ 32])

/-- One SHA-256 compression round. -/
def shaRound (st : List ℕ) (kw : ℕ × ℕ) : List ℕ :=
  match st with
  | [a, b, c, d, e, f, g, h] =>
    let S1 := rotr32 6 e ^^^ rotr32 11 e ^^^ rotr32 25 e
    let ch := e.land f ^^^ (2 ^ 32 - 1 - e).land g
    let t1 := (h + S1 + ch + kw.1 + kw.2) % 2 ^ 32
    let S0 := rotr32 2 a ^^^ rotr32 13 a ^^^ rotr32 22 a
    let maj := a.land b ^^^ a.land c ^^^ b.land c
    let t2 := (S0 + maj) % 2 ^ 32
    [(t1 + t2) % 2 ^ 32, a, b, c, (d + t1) % 2 ^ 32, e, f, g]
  | st => st

/-- Compress one 64-byte block into the running hash state. -/
def compressBlock (h : List ℕ) (block : List ℕ) : List ℕ :=
  let w := extendSched 48 (toWords block)
  let fin := (shaK.zip w).foldl shaRound h
  List.zipWith (fun x y => (x + y) % 2 ^ 32) h fin

/-- Process the padded message block by block (`fuel` counts blocks). -/
def processBlocks : ℕ → List ℕ → List ℕ → List ℕ
  | 0, h, _ => h
  | f + 1, h, bytes => processBlocks f (compressBlock h (bytes.take 64)) (bytes.drop 64)

/-- SHA-256 of a byte string. -/
def sha256 (msg : List ℕ) : List ℕ :=
  let padded := msg ++ 0x80 :: (List.replicate ((64 + 55 - msg.length % 64) % 64) 0
    ++ beBytes 8 (8 * msg.length))
  ((processBlocks (padded.length / 64) shaH0 padded).map (beBytes 4)).flatten

/-- The Base58 alphabet used by Bitcoin and Tron. -/
def base58Alphabet : List Char :=
  "123456789ABCDEFGHJKLMNPQRSTUVWXYZabcdefghijkmnopqrstuvwxyz".data

/-- The value of a Base58 digit character. -/
def base58Val? (c : Char) : Option ℕ := base58Alphabet.findIdx? (· = c)

/-- `FromBase58::from_base58` from the `base58` crate: reject any
character outside the alphabet, interpret the string as a big-endian
base-58 numeral, and render it in base 256 with one leading zero byte
per leading `'1'`. -/
def from_base58 (cs : List Char) : Option (List ℕ) := do
  let vals ← cs.mapM base58Val?
  let n := vals.foldl (fun a d => a * 58 + d) 0
  let lead := (cs.takeWhile (· = '1')).length
  pure (List.replicate lead 0 ++ (digitsF 256 n n).reverse)

/-! ## JSON-RPC response shape shared by the EVM chain clients

`src/ethereum_wallet.rs`, `src/polygon_wallet.rs` and
`src/arbitrum_wallet.rs` each declare identical `JsonRpcResponse` /
`JsonRpcError` deserialization structs; they are modelled once. -/

/-- The `error` member of a JSON-RPC response. -/
structure JsonRpcError where
  code : ℤ
  message : List Char
deriving DecidableEq, Repr

/-- A deserialized JSON-RPC response body. -/
structure JsonRpcResponse where
  result : Option (List Char)
  error : Option JsonRpcError
deriving DecidableEq, Repr

/-- `trim_start_matches("0x")`: strip every leading repetition of `0x`. -/
def strip0xRep : List Char → List Char
  | '0' :: 'x' :: rest => strip0xRep rest
  | cs => cs

namespace ethereum_wallet

/-- `normalize_address` (`src/ethereum_wallet.rs`): reject the empty
string, otherwise lower-case and prefix `0x` unless a `0x`/`0X` prefix
is already present. -/
def normalize_address (address : List Char) : Except String (List Char) :=
  if address.isEmpty then .error "Ethereum address cannot be empty"
  else if startsWithL "0x".data address || startsWithL "0X".data address then
    .ok (lowerStr address)
  else .ok ('0' :: 'x' :: lowerStr address)

/-- `validate_address` (`src/ethereum_wallet.rs`): `0x` prefix, then
total byte length 42, then all characters after the prefix ASCII hex.
(The source slices `address[2..]` by bytes; at that point the `0x`
prefix — two one-byte characters — is known to be present, so the
slice is `drop 2`.) -/
def validate_address (address : List Char) : Except String Unit :=
  if ¬ startsWithL "0x".data address then
    .error "Ethereum address must start with 0x"
  else if utf8Len address ≠ 42 then
    .error "Invalid Ethereum address length (expected 42 characters)"
  else if ¬ (address.drop 2).all isHexDigitChar then
    .error "Ethereum address contains invalid hex characters"
  else .ok ()

/-- `parse_hex_to_u128` (`src/ethereum_wallet.rs`):
`u128::from_str_radix(hex_str.trim_start_matches("0x"), 16)`, which
also accepts one leading `'+'` and fails on empty digits, a non-hex
character, or a value not fitting in 128 bits. -/
def parse_hex_to_u128 (hex_str : List Char) : Except String ℕ :=
  let s := strip0xRep hex_str
  let t := match s with | '+' :: r => r | _ => s
  match t.mapM hexVal? with
  | none => .error "Failed to parse hex balance value"
  | some ds =>
    if ds.isEmpty then .error "Failed to parse hex balance value"
    else
      let n := ds.foldl (fun a d => a * 16 + d) 0
      if n < 2 ^ 128 then .ok n else .error "Failed to parse hex balance value"

/-- `wei_to_eth` (`src/ethereum_wallet.rs`): exact integer conversion of
a wei amount to a decimal string with trailing zeros trimmed. -/
def wei_to_eth (wei : ℕ) : List Char :=
  if wei = 0 then "0".data
  else
    let eth_whole := wei / 1000000000000000000
    let eth_fraction := wei % 1000000000000000000
    if eth_fraction = 0 then natToDecChars eth_whole
    else
      let fraction_str := padZeros 18 (natToDecChars eth_fraction)
      let trimmed := trimTrailing0 fraction_str
      natToDecChars eth_whole ++ '.' :: trimmed

/-- The request/response stage of `get_balance`
(`src/ethereum_wallet.rs`): everything after address validation, as a
function of the validated address and the network's answer. -/
def handle_response (address : List Char) (net : NetResponse JsonRpcResponse) :
    Except String WalletBalance :=
  match net with
  | .sendFailure => .error "Failed to send request to Ethereum RPC"
  | .badStatus status _ =>
    .error ("RPC request failed with status: " ++ String.mk (natToDecChars status))
  | .badJson => .error "Failed to parse JSON response from Ethereum RPC"
  | .parsed r =>
    match r.error with
    | some e => .error ("RPC error " ++ toString e.code ++ ": " ++ String.mk e.message)
    | none =>
      match r.result with
      | none => .error "No result in RPC response"
      | some balance_hex => do
        let balance_wei ← parse_hex_to_u128 balance_hex
        pure (WalletBalance.new address (wei_to_eth balance_wei) "ethereum".data "ETH".data)

/-- `get_balance` (`src/ethereum_wallet.rs`), with the single HTTP
round trip made explicit as a `NetResponse` argument. -/
def get_balance (address : List Char) (net : NetResponse JsonRpcResponse) :
    Except String WalletBalance := do
  let address ← normalize_address address
  let _ ← validate_address address
  handle_response address net

end ethereum_wallet

namespace polygon_wallet

/-- `normalize_address` (`src/polygon_wallet.rs`); same logic as the
Ethereum module, with Polygon-specific messages. -/
def normalize_address (address : List Char) : Except String (List Char) :=
  if address.isEmpty then .error "Polygon address cannot be empty"
  else if startsWithL "0x".data address || startsWithL "0X".data address then
    .ok (lowerStr address)
  else .ok ('0' :: 'x' :: lowerStr address)

/-- `validate_address` (`src/polygon_wallet.rs`). -/
def validate_address (address : List Char) : Except String Unit :=
  if ¬ startsWithL "0x".data address then
    .error "Polygon address must start with 0x"
  else if utf8Len address ≠ 42 then
    .error "Invalid Polygon address length (expected 42 characters)"
  else if ¬ (address.drop 2).all isHexDigitChar then
    .error "Polygon address contains invalid hex characters"
  else .ok ()

/-- `wei_to_eth` (`src/polygon_wallet.rs`; duplicated per module in the
source). -/
def wei_to_eth (wei : ℕ) : List Char :=
  if wei = 0 then "0".data
  else
    let eth_whole := wei / 1000000000000000000
    let eth_fraction := wei % 1000000000000000000
    if eth_fraction = 0 then natToDecChars eth_whole
    else
      let fraction_str := padZeros 18 (natToDecChars eth_fraction)
      let trimmed := trimTrailing0 fraction_str
      natToDecChars eth_whole ++ '.' :: trimmed

/-- `parse_hex_to_u128` (`src/polygon_wallet.rs`). -/
def parse_hex_to_u128 (hex_str : List Char) : Except String ℕ :=
  ethereum_wallet.parse_hex_to_u128 hex_str

/-- The request/response stage of `get_balance`
(`src/polygon_wallet.rs`): everything after address validation, as a
function of the validated address and the network's answer. -/
def handle_response (address : List Char) (net : NetResponse JsonRpcResponse) :
    Except String WalletBalance :=
  match net with
  | .sendFailure => .error "Failed to send request to Polygon RPC"
  | .badStatus status _ =>
    .error ("RPC request failed with status: " ++ String.mk (natToDecChars status))
  | .badJson => .error "Failed to parse JSON response from Polygon RPC"
  | .parsed r =>
    match r.error with
    | some e => .error ("RPC error " ++ toString e.code ++ ": " ++ String.mk e.message)
    | none =>
      match r.result with
      | none => .error "No result in RPC response"
      | some balance_hex => do
        let balance_wei ← parse_hex_to_u128 balance_hex
        pure (WalletBalance.new address (wei_to_eth balance_wei) "polygon".data "MATIC".data)

/-- `get_balance` (`src/polygon_wallet.rs`), with the single HTTP
round trip made explicit as a `NetResponse` argument. -/
def get_balance (address : List Char) (net : NetResponse JsonRpcResponse) :
    Except String WalletBalance := do
  let address ← normalize_address address
  let _ ← validate_address address
  handle_response address net

end polygon_wallet

namespace arbitrum_wallet

/-- `normalize_address` (`src/arbitrum_wallet.rs`). -/
def normalize_address (address : List Char) : Except String (List Char) :=
  if address.isEmpty then .error "Arbitrum address cannot be empty"
  else if startsWithL "0x".data address || startsWithL "0X".data address then
    .ok (lowerStr address)
  else .ok ('0' :: 'x' :: lowerStr address)

/-- `validate_address` (`src/arbitrum_wallet.rs`). -/
def validate_address (address : List Char) : Except String Unit :=
  if ¬ startsWithL "0x".data address then
    .error "Arbitrum address must start with 0x"
  else if utf8Len address ≠ 42 then
    .error "Invalid Arbitrum address length (expected 42 characters)"
  else if ¬ (address.drop 2).all isHexDigitChar then
    .error "Arbitrum address contains invalid hex characters"
  else .ok ()

/-- `wei_to_eth` (`src/arbitrum_wallet.rs`). -/
def wei_to_eth (wei : ℕ) : List Char :=
  if wei = 0 then "0".data
  else
    let eth_whole := wei / 1000000000000000000
    let eth_fraction := wei % 1000000000000000000
    if eth_fraction = 0 then natToDecChars eth_whole
    else
      let fraction_str := padZeros 18 (natToDecChars eth_fraction)
      let trimmed := trimTrailing0 fraction_str
      natToDecChars eth_whole ++ '.' :: trimmed

/-- `parse_hex_to_u128` (`src/arbitrum_wallet.rs`). -/
def parse_hex_to_u128 (hex_str : List Char) : Except String ℕ :=
  ethereum_wallet.parse_hex_to_u128 hex_str

/-- The request/response stage of `get_balance`
(`src/arbitrum_wallet.rs`): everything after address validation, as a
function of the validated address and the network's answer. -/
def handle_response (address : List Char) (net : NetResponse JsonRpcResponse) :
    Except String WalletBalance :=
  match net with
  | .sendFailure => .error "Failed to send request to Arbitrum RPC"
  | .badStatus status _ =>
    .error ("RPC request failed with status: " ++ String.mk (natToDecChars status))
  | .badJson => .error "Failed to parse JSON response from Arbitrum RPC"
  | .parsed r =>
    match r.error with
    | some e => .error ("RPC error " ++ toString e.code ++ ": " ++ String.mk e.message)
    | none =>
      match r.result with
      | none => .error "No result in RPC response"
      | some balance_hex => do
        let balance_wei ← parse_hex_to_u128 balance_hex
        pure (WalletBalance.new address (wei_to_eth balance_wei) "arbitrum".data "ETH".data)

/-- `get_balance` (`src/arbitrum_wallet.rs`), with the single HTTP
round trip made explicit as a `NetResponse` argument. -/
def get_balance (address : List Char) (net : NetResponse JsonRpcResponse) :
    Except String WalletBalance := do
  let address ← normalize_address address
  let _ ← validate_address address
  handle_response address net

end arbitrum_wallet

namespace bitcoin_wallet

/-- `ChainStats` (`src/bitcoin_wallet.rs`): the explorer's cumulative
funded and spent satoshi totals (`u64`). -/
structure ChainStats where
  funded_txo_sum : ℕ
  spent_txo_sum : ℕ
deriving DecidableEq, Repr

/-- `BlockstreamResponse` (`src/bitcoin_wallet.rs`). -/
structure BlockstreamResponse where
  chain_stats : ChainStats
deriving DecidableEq, Repr

/-- `validate_address` (`src/bitcoin_wallet.rs`): non-empty, byte
length in `[26, 62]`, and a `1`, `3` or `bc1` prefix. -/
def validate_address (address : List Char) : Except String Unit :=
  if address.isEmpty then .error "Bitcoin address cannot be empty"
  else if utf8Len address < 26 ∨ 62 < utf8Len address then
    .error "Invalid Bitcoin address length"
  else if ¬ startsWithL "1".data address ∧ ¬ startsWithL "3".data address
      ∧ ¬ startsWithL "bc1".data address then
    .error "Invalid Bitcoin address format (must start with 1, 3, or bc1)"
  else .ok ()

/-- `get_balance` (`src/bitcoin_wallet.rs`).  The satoshi total is
`funded_txo_sum.saturating_sub(spent_txo_sum)` — truncated subtraction
on `ℕ` — and the displayed balance is
`format("{:.8}", balance_sats as f64 / 100_000_000.0)`, which goes
through `f64`. -/
def handle_response (address : List Char) (net : NetResponse BlockstreamResponse) :
    Except String WalletBalance :=
  match net with
  | .sendFailure => .error "Failed to send request to Blockstream API"
  | .badStatus status body =>
    .error ("API failed: " ++ String.mk (natToDecChars status) ++ " - " ++ String.mk body)
  | .badJson => .error "Failed to parse JSON from Blockstream"
  | .parsed data =>
    pure (WalletBalance.new address
      (fmtF64 8 (f64Div (f64OfNat
        (data.chain_stats.funded_txo_sum - data.chain_stats.spent_txo_sum))
        (f64OfNat 100000000)))
      "bitcoin".data "BTC".data)

/-- `get_balance` (`src/bitcoin_wallet.rs`): validate, then process the
explorer's answer. -/
def get_balance (address : List Char) (net : NetResponse BlockstreamResponse) :
    Except String WalletBalance := do
  let _ ← validate_address address
  handle_response address net

end bitcoin_wallet

namespace tron_wallet

/-- `AccountData` (`src/tron_wallet.rs`): one account record, whose
`balance` field (in sun) may be absent. -/
structure AccountData where
  balance : Option ℕ
deriving DecidableEq, Repr

/-- `AccountResponse` (`src/tron_wallet.rs`). -/
structure AccountResponse where
  success : Bool
  data : List AccountData
deriving DecidableEq, Repr

/-- `validate_address` (`src/tron_wallet.rs`): 34 bytes beginning with
`T`, Base58-decodable to 25 bytes, version byte `0x41`, and a valid
double-SHA256 checksum over the first 21 bytes. -/
def validate_address (address : List Char) : Except String Unit :=
  if utf8Len address ≠ 34 ∨ ¬ startsWithL "T".data address then
    .error "Invalid Tron address: must be 34 chars starting with 'T'"
  else
    match from_base58 address with
    | none => .error "Invalid Base58 encoding"
    | some decoded =>
      if decoded.length ≠ 25 then .error "Invalid decoded length"
      else if decoded.headD 0 ≠ 0x41 then .error "Invalid Tron version byte"
      else if decoded.drop 21 ≠ (sha256 (sha256 (decoded.take 21))).take 4 then
        .error "Invalid address checksum"
      else .ok ()

/-- `get_balance` (`src/tron_wallet.rs`): trim the address, validate,
query; a `success == false` or empty `data` response is a zero
balance, otherwise the first record's `balance` (default 0) is
converted from sun via `f64` and printed with 6 decimal places.
(The plain `?` on `send()` surfaces the transport error's own message;
it is modelled by a fixed marker string.) -/
def handle_response (address : List Char) (net : NetResponse AccountResponse) :
    Except String WalletBalance :=
  match net with
  | .sendFailure => .error "error sending request"
  | .badStatus status body =>
    .error ("TronGrid API failed: " ++ String.mk (natToDecChars status) ++ " - " ++ String.mk body)
  | .badJson => .error "Failed to parse JSON"
  | .parsed data =>
    if ¬ data.success || data.data.isEmpty then
      pure (WalletBalance.new address (fmtF64 6 (f64OfNat 0)) "tron".data "TRX".data)
    else
      pure (WalletBalance.new address
        (fmtF64 6 (f64Div (f64OfNat (((data.data.headD ⟨none⟩).balance).getD 0))
          (f64OfNat 1000000)))
        "tron".data "TRX".data)

/-- The trim/validate/query pipeline of `get_balance`
(`src/tron_wallet.rs`). -/
def get_balance (address : List Char) (net : NetResponse AccountResponse) :
    Except String WalletBalance := do
  let address := trimChars address
  let _ ← validate_address address
  handle_response address net

end tron_wallet

/-! ## The EVM address pattern -/

/-- The specification's accepted-address pattern: exactly `0x` followed
by exactly 40 hexadecimal characters (total length 42). -/
def evmOkPattern (n : List Char) : Prop :=
  ∃ t, n = '0' :: 'x' :: t ∧ t.length = 40 ∧ ∀ c ∈ t, isHexDigitChar c = true

/-- The total normalization function applied to non-empty input:
lower-case, and prefix `0x` unless a `0x`/`0X` prefix is present. -/
def evmNormalizeStr (a : List Char) : List Char :=
  if startsWithL "0x".data a || startsWithL "0X".data a then lowerStr a
  else '0' :: 'x' :: lowerStr a

/-- `digitsF` with enough fuel agrees with `Nat.digits`. -/
theorem digitsF_eq_digits (b : ℕ) (hb : 1 < b) :
    ∀ fuel n, n ≤ fuel → digitsF b fuel n = Nat.digits b n := by
  intro fuel
  induction fuel with
  | zero =>
    intro n hn
    have : n = 0 := by omega
    subst this
    simp [digitsF]
  | succ f ih =>
    intro n hn
    by_cases h : n = 0
    · subst h; simp [digitsF]
    · rw [digitsF, if_neg h, Nat.digits_def' hb (Nat.pos_of_ne_zero h), ih]
      have : n / b < n := Nat.div_lt_self (Nat.pos_of_ne_zero h) hb
      omega

theorem charsVal_foldl (cs : List Char) :
    ∀ a : ℕ, cs.foldl (fun a c => a * 10 + (c.toNat - 48)) a
      = a * 10 ^ cs.length + charsVal cs := by
  induction cs with
  | nil =>
    intro a
    simp only [List.foldl_nil, List.length_nil, pow_zero, mul_one]
    rfl
  | cons c cs ih =>
    intro a
    have hlhs : (c :: cs).foldl (fun a c => a * 10 + (c.toNat - 48)) a
        = (a * 10 + (c.toNat - 48)) * 10 ^ cs.length + charsVal cs := by
      rw [List.foldl_cons, ih]
    have hrhs : charsVal (c :: cs)
        = (0 * 10 + (c.toNat - 48)) * 10 ^ cs.length + charsVal cs := by
      unfold charsVal
      rw [List.foldl_cons, ih]
      rfl
    rw [hlhs, hrhs, List.length_cons]
    ring

theorem charsVal_append (xs ys : List Char) :
    charsVal (xs ++ ys) = charsVal xs * 10 ^ ys.length + charsVal ys := by
  unfold charsVal
  rw [List.foldl_append, charsVal_foldl]
  rfl

theorem charsVal_replicate_zero (k : ℕ) :
    charsVal (List.replicate k '0') = 0 := by
  induction k with
  | zero => rfl
  | succ m ih =>
    have : List.replicate (m + 1) '0' = List.replicate m '0' ++ ['0'] := by
      rw [List.replicate_succ']
    rw [this, charsVal_append, ih]
    rfl

theorem digitChar_toNat {d : ℕ} (hd : d < 10) : (digitChar d).toNat = 48 + d := by
  interval_cases d <;> decide

theorem digitChar_isDigit {d : ℕ} (hd : d < 10) : isDigitChar (digitChar d) = true := by
  interval_cases d <;> decide

theorem digitChar_ne_dot {d : ℕ} (hd : d < 10) : digitChar d ≠ '.' := by
  interval_cases d <;> decide

/-- Rendering a digit list (big-endian, via `map digitChar` of the
reversed little-endian digits) evaluates back to `Nat.ofDigits`. -/
theorem charsVal_of_digit_list (L : List ℕ) (hL : ∀ d ∈ L, d < 10) :
    charsVal ((L.map digitChar).reverse) = Nat.ofDigits 10 L := by
  induction L with
  | nil => rfl
  | cons d rest ih =>
    have hd : d < 10 := hL d (List.mem_cons_self d rest)
    have hrest : ∀ x ∈ rest, x < 10 := fun x hx => hL x (List.mem_cons_of_mem d hx)
    simp only [List.map_cons, List.reverse_cons, charsVal_append, ih hrest,
      Nat.ofDigits_cons]
    simp [charsVal, digitChar_toNat hd]
    ring

theorem charsVal_natToDecChars (n : ℕ) : charsVal (natToDecChars n) = n := by
  unfold natToDecChars
  by_cases h : n = 0
  · simp [h]; rfl
  · rw [if_neg h, digitsF_eq_digits 10 (by norm_num) n n le_rfl,
      charsVal_of_digit_list _ (fun d hd => Nat.digits_lt_base (by norm_num) hd),
      Nat.ofDigits_digits]

theorem natToDecChars_digits (n : ℕ) :
    ∀ c ∈ natToDecChars n, isDigitChar c = true := by
  unfold natToDecChars
  by_cases h : n = 0
  · rw [if_pos h]
    intro c hc
    rw [List.mem_singleton] at hc
    subst hc
    decide
  · rw [if_neg h, digitsF_eq_digits 10 (by norm_num) n n le_rfl]
    intro c hc
    rw [List.mem_reverse] at hc
    obtain ⟨d, hd, rfl⟩ := List.mem_map.mp hc
    exact digitChar_isDigit (Nat.digits_lt_base (by norm_num) hd)

theorem isDigitChar_ne_dot {c : Char} (h : isDigitChar c = true) : c ≠ '.' := by
  intro hc; subst hc; simp [isDigitChar] at h

theorem natToDecChars_ne_nil (n : ℕ) : natToDecChars n ≠ [] := by
  unfold natToDecChars
  by_cases h : n = 0
  · simp [h]
  · rw [if_neg h, digitsF_eq_digits 10 (by norm_num) n n le_rfl]
    simp [Nat.digits_ne_nil_iff_ne_zero, h]

/-- Length of the decimal rendering: at most `k` digits when `n < 10^k`
(for `n ≠ 0`; `natToDecChars 0 = "0"` has length 1). -/
theorem natToDecChars_length_le {n k : ℕ} (hn : n ≠ 0) (h : n < 10 ^ k) :
    (natToDecChars n).length ≤ k := by
  unfold natToDecChars
  rw [if_neg hn, digitsF_eq_digits 10 (by norm_num) n n le_rfl]
  rw [List.length_reverse, List.length_map]
  by_contra hcon
  push_neg at hcon
  have hle : 10 ^ (k + 1) ≤ 10 ^ (Nat.digits 10 n).length :=
    Nat.pow_le_pow_right (by norm_num) hcon
  have := Nat.base_pow_length_digits_le 10 n (by norm_num) hn
  have h10 : 10 ^ (k + 1) ≤ 10 * n := le_trans hle this
  rw [pow_succ] at h10
  omega

theorem padZeros_length {w : ℕ} {cs : List Char} (h : cs.length ≤ w) :
    (padZeros w cs).length = w := by
  unfold padZeros
  rw [List.length_append, List.length_replicate]
  omega

theorem charsVal_padZeros (w : ℕ) (cs : List Char) :
    charsVal (padZeros w cs) = charsVal cs := by
  unfold padZeros
  rw [charsVal_append, charsVal_replicate_zero]
  ring

theorem padZeros_digits {w : ℕ} {cs : List Char}
    (h : ∀ c ∈ cs, isDigitChar c = true) :
    ∀ c ∈ padZeros w cs, isDigitChar c = true := by
  intro c hc
  unfold padZeros at hc
  rcases List.mem_append.mp hc with h0 | h1
  · rw [List.eq_of_mem_replicate h0]; decide
  · exact h c h1

/-- Every list splits as its trailing-zero-trimmed part followed by a
block of `'0'`s. -/
theorem trimTrailing0_spec (cs : List Char) :
    ∃ k, cs = trimTrailing0 cs ++ List.replicate k '0' := by
  refine ⟨(cs.reverse.takeWhile (· = '0')).length, ?_⟩
  unfold trimTrailing0
  have hsplit := List.takeWhile_append_dropWhile (p := (· = '0')) (l := cs.reverse)
  have htake : cs.reverse.takeWhile (· = '0')
      = List.replicate (cs.reverse.takeWhile (· = '0')).length '0' := by
    apply List.eq_replicate_of_mem
    intro b hb
    have := List.mem_takeWhile_imp hb
    simpa using this
  calc cs = cs.reverse.reverse := (List.reverse_reverse cs).symm
    _ = (cs.reverse.takeWhile (· = '0') ++ cs.reverse.dropWhile (· = '0')).reverse := by
        rw [hsplit]
    _ = (cs.reverse.dropWhile (· = '0')).reverse ++ (cs.reverse.takeWhile (· = '0')).reverse := by
        rw [List.reverse_append]
    _ = (cs.reverse.dropWhile (· = '0')).reverse
        ++ List.replicate (cs.reverse.takeWhile (· = '0')).length '0' := by
        rw [← List.reverse_replicate, ← htake]

theorem trimTrailing0_sublist_mem {cs : List Char} {c : Char}
    (h : c ∈ trimTrailing0 cs) : c ∈ cs := by
  obtain ⟨k, hk⟩ := trimTrailing0_spec cs
  rw [hk]
  exact List.mem_append.mpr (Or.inl h)

theorem parseDigits?_of_digits {cs : List Char} (hne : cs ≠ [])
    (h : ∀ c ∈ cs, isDigitChar c = true) :
    parseDigits? cs = some (charsVal cs) := by
  unfold parseDigits?
  rw [if_neg (by simpa [List.isEmpty_iff] using hne)]
  suffices hgen : ∀ (l : List Char), (∀ c ∈ l, isDigitChar c = true) → ∀ a : ℕ,
      parseDigitsGo a l = some (l.foldl (fun a c => a * 10 + (c.toNat - 48)) a) by
    exact hgen cs h 0
  intro l
  induction l with
  | nil => intro _ a; rfl
  | cons c rest ih =>
    intro hl a
    have hc : isDigitChar c = true := hl c (List.mem_cons_self c rest)
    have hrest : ∀ x ∈ rest, isDigitChar x = true :=
      fun x hx => hl x (List.mem_cons_of_mem c hx)
    rw [parseDigitsGo, if_pos hc, ih hrest, List.foldl_cons]

theorem takeWhile_all {p : Char → Bool} {W : List Char}
    (hW : ∀ c ∈ W, p c = true) : W.takeWhile p = W := by
  induction W with
  | nil => rfl
  | cons c cs ih =>
    rw [List.takeWhile_cons, if_pos (hW c (List.mem_cons_self c cs))]
    rw [ih (fun x hx => hW x (List.mem_cons_of_mem c hx))]

theorem dropWhile_all {p : Char → Bool} {W : List Char}
    (hW : ∀ c ∈ W, p c = true) : W.dropWhile p = [] := by
  induction W with
  | nil => rfl
  | cons c cs ih =>
    rw [List.dropWhile_cons, if_pos (hW c (List.mem_cons_self c cs))]
    exact ih (fun x hx => hW x (List.mem_cons_of_mem c hx))

theorem takeWhile_append_stop {p : Char → Bool} {W T : List Char} {c0 : Char}
    (hW : ∀ c ∈ W, p c = true) (hc0 : p c0 = false) :
    (W ++ c0 :: T).takeWhile p = W := by
  induction W with
  | nil => simp [List.takeWhile_cons, hc0]
  | cons c cs ih =>
    rw [List.cons_append, List.takeWhile_cons, if_pos (hW c (List.mem_cons_self c cs))]
    rw [ih (fun x hx => hW x (List.mem_cons_of_mem c hx))]

theorem dropWhile_append_stop {p : Char → Bool} {W T : List Char} {c0 : Char}
    (hW : ∀ c ∈ W, p c = true) (hc0 : p c0 = false) :
    (W ++ c0 :: T).dropWhile p = c0 :: T := by
  induction W with
  | nil => simp [List.dropWhile_cons, hc0]
  | cons c cs ih =>
    rw [List.cons_append, List.dropWhile_cons, if_pos (hW c (List.mem_cons_self c cs))]
    exact ih (fun x hx => hW x (List.mem_cons_of_mem c hx))

/-- An all-digit string (no dot) parses as an integer. -/
theorem parseDec?_int {W : List Char} (hne : W ≠ [])
    (h : ∀ c ∈ W, isDigitChar c = true) :
    parseDec? W = some (charsVal W, 0) := by
  have hnd : ∀ c ∈ W, (c ≠ '.' : Bool) = true := by
    intro c hc
    simpa using isDigitChar_ne_dot (h c hc)
  unfold parseDec?
  rw [dropWhile_all hnd]
  simp only [takeWhile_all hnd]
  rw [parseDigits?_of_digits hne h]
  rfl

/-- A `digits '.' digits` string parses with the fraction scaled by
`10 ^ (fraction length)`. -/
theorem parseDec?_frac {W T : List Char} (hWne : W ≠ []) (hTne : T ≠ [])
    (hW : ∀ c ∈ W, isDigitChar c = true) (hT : ∀ c ∈ T, isDigitChar c = true) :
    parseDec? (W ++ '.' :: T) = some (charsVal W * 10 ^ T.length + charsVal T, T.length) := by
  have hWnd : ∀ c ∈ W, (c ≠ '.' : Bool) = true := by
    intro c hc
    simpa using isDigitChar_ne_dot (hW c hc)
  have h1 : (W ++ '.' :: T).takeWhile (· ≠ '.') = W :=
    takeWhile_append_stop hWnd (by simp)
  have h2 : (W ++ '.' :: T).dropWhile (· ≠ '.') = '.' :: T :=
    dropWhile_append_stop hWnd (by simp)
  have hTdot : ¬ ('.' ∈ T) := by
    intro hmem
    exact isDigitChar_ne_dot (hT '.' hmem) rfl
  unfold parseDec?
  rw [h1, h2]
  show (if '.' ∈ T then none
      else do
        let w ← parseDigits? W
        let f ← parseDigits? T
        pure (w * 10 ^ T.length + f, T.length))
    = some (charsVal W * 10 ^ T.length + charsVal T, T.length)
  rw [if_neg hTdot, parseDigits?_of_digits hWne hW,
    parseDigits?_of_digits hTne hT]
  rfl

/-! ## Exactness of `wei_to_eth` -/

theorem wei_to_eth_eq (w : ℕ) :
    ethereum_wallet.wei_to_eth w =
      if w = 0 then "0".data
      else if w % 1000000000000000000 = 0 then natToDecChars (w / 1000000000000000000)
      else natToDecChars (w / 1000000000000000000) ++ '.' ::
        trimTrailing0 (padZeros 18 (natToDecChars (w % 1000000000000000000))) := rfl

/-- Parsing the output of `wei_to_eth` back as a rational recovers
`w / 10^18` exactly, for every `w`. -/
theorem wei_to_eth_parse (w : ℕ) :
    parseRat? (ethereum_wallet.wei_to_eth w) = some ((w : ℚ) / 10 ^ 18) := by
  rw [wei_to_eth_eq]
  by_cases h0 : w = 0
  · subst h0
    rw [if_pos rfl]
    have h : parseDec? "0".data = some (0, 0) := by decide
    unfold parseRat?
    rw [h]
    norm_num
  · rw [if_neg h0]
    have hw : 1000000000000000000 * (w / 1000000000000000000)
        + w % 1000000000000000000 = w := Nat.div_add_mod w 1000000000000000000
    by_cases hf : w % 1000000000000000000 = 0
    · rw [if_pos hf]
      unfold parseRat?
      rw [parseDec?_int (natToDecChars_ne_nil _) (natToDecChars_digits _),
        charsVal_natToDecChars]
      rw [Option.map_some']
      congr 1
      rw [hf, add_zero] at hw
      have hwQ : (w : ℚ) = 10 ^ 18 * (w / 1000000000000000000 : ℕ) := by
        rw [← hw]
        push_cast
        norm_num
      rw [hwQ]
      field_simp
    · rw [if_neg hf]
      have hfrac_lt : w % 1000000000000000000 < 10 ^ 18 := by
        have : w % 1000000000000000000 < 1000000000000000000 :=
          Nat.mod_lt _ (by norm_num)
        omega
      have hds_len : (natToDecChars (w % 1000000000000000000)).length ≤ 18 :=
        natToDecChars_length_le hf hfrac_lt
      have hplen : (padZeros 18 (natToDecChars (w % 1000000000000000000))).length = 18 :=
        padZeros_length hds_len
      obtain ⟨k, hk⟩ := trimTrailing0_spec (padZeros 18 (natToDecChars (w % 1000000000000000000)))
      have hpv : charsVal (padZeros 18 (natToDecChars (w % 1000000000000000000)))
          = w % 1000000000000000000 := by
        rw [charsVal_padZeros, charsVal_natToDecChars]
      have hTk : charsVal (padZeros 18 (natToDecChars (w % 1000000000000000000)))
          = charsVal (trimTrailing0 (padZeros 18 (natToDecChars (w % 1000000000000000000))))
            * 10 ^ k := by
        conv_lhs => rw [hk]
        rw [charsVal_append, charsVal_replicate_zero, add_zero, List.length_replicate]
      have hlen : (trimTrailing0 (padZeros 18 (natToDecChars (w % 1000000000000000000)))).length
          + k = 18 := by
        conv_rhs => rw [← hplen]
        conv_rhs => rw [hk]
        rw [List.length_append, List.length_replicate]
      have hTne : trimTrailing0 (padZeros 18 (natToDecChars (w % 1000000000000000000))) ≠ [] := by
        intro hnil
        rw [hnil] at hTk
        have : charsVal ([] : List Char) = 0 := rfl
        rw [this, zero_mul] at hTk
        rw [hTk] at hpv
        exact hf hpv.symm
      have hTdig : ∀ c ∈ trimTrailing0 (padZeros 18 (natToDecChars (w % 1000000000000000000))),
          isDigitChar c = true := by
        intro c hc
        exact padZeros_digits (natToDecChars_digits _) c (trimTrailing0_sublist_mem hc)
      unfold parseRat?
      rw [parseDec?_frac (natToDecChars_ne_nil _) hTne (natToDecChars_digits _) hTdig,
        charsVal_natToDecChars, Option.map_some']
      congr 1
      have hv : (w % 1000000000000000000)
          = charsVal (trimTrailing0 (padZeros 18 (natToDecChars (w % 1000000000000000000))))
            * 10 ^ k := hpv.symm.trans hTk
      set L := (trimTrailing0 (padZeros 18 (natToDecChars (w % 1000000000000000000)))).length
        with hLdef
      set v := charsVal (trimTrailing0 (padZeros 18 (natToDecChars (w % 1000000000000000000))))
        with hvdef
      rw [div_eq_div_iff (by positivity) (by positivity)]
      have hwQ : (w : ℚ) = 10 ^ 18 * (w / 1000000000000000000 : ℕ) + (v : ℚ) * 10 ^ k := by
        have := hw
        rw [hv] at this
        calc (w : ℚ) = ((1000000000000000000 * (w / 1000000000000000000) + v * 10 ^ k : ℕ) : ℚ) := by
              rw [this]
          _ = 10 ^ 18 * (w / 1000000000000000000 : ℕ) + (v : ℚ) * 10 ^ k := by
              push_cast
              norm_num
      rw [hwQ]
      have h18 : (10 : ℚ) ^ 18 = 10 ^ L * 10 ^ k := by
        rw [← pow_add, hlen]
      rw [h18]
      push_cast
      ring

/-! ## Character-level facts -/

theorem startsWithL_iff (pre cs : List Char) :
    startsWithL pre cs = true ↔ cs.take pre.length = pre := by
  unfold startsWithL
  exact decide_eq_true_iff

theorem isHexDigitChar_mem {c : Char} (h : isHexDigitChar c = true) :
    c ∈ asciiHexDigits :=
  List.elem_iff.mp h

theorem mem_isHexDigitChar {c : Char} (h : c ∈ asciiHexDigits) :
    isHexDigitChar c = true :=
  List.elem_eq_true_of_mem h

theorem hex_utf8Size {c : Char} (h : isHexDigitChar c = true) : c.utf8Size = 1 := by
  have hm := isHexDigitChar_mem h
  fin_cases hm <;> decide

theorem hex_lowerChar {c : Char} (h : isHexDigitChar c = true) :
    isHexDigitChar (lowerChar c) = true := by
  have hm := isHexDigitChar_mem h
  fin_cases hm <;> decide

theorem lowerChar_upper_toNat {c : Char} (h1 : 65 ≤ c.toNat) (h2 : c.toNat ≤ 90) :
    (lowerChar c).toNat = c.toNat + 32 := by
  suffices hgen : ∀ n, 65 ≤ n → n ≤ 90 →
      (lowerChar (Char.ofNat n)).toNat = (Char.ofNat n).toNat + 32 by
    have := hgen c.toNat h1 h2
    rwa [Char.ofNat_toNat c] at this
  intro n hn1 hn2
  interval_cases n <;> decide

/-- Lower-casing never produces an ASCII upper-case letter. -/
theorem lowerChar_not_upper (c : Char) :
    ¬ (65 ≤ (lowerChar c).toNat ∧ (lowerChar c).toNat ≤ 90) := by
  by_cases h : 65 ≤ c.toNat ∧ c.toNat ≤ 90
  · have := lowerChar_upper_toNat h.1 h.2
    omega
  · unfold lowerChar
    rw [if_neg h]
    exact h

theorem utf8Len_nil : utf8Len [] = 0 := rfl

theorem utf8Len_cons (c : Char) (cs : List Char) :
    utf8Len (c :: cs) = c.utf8Size + utf8Len cs := by
  simp [utf8Len]

theorem utf8Len_hex_eq_length {cs : List Char}
    (h : ∀ c ∈ cs, isHexDigitChar c = true) : utf8Len cs = cs.length := by
  induction cs with
  | nil => rfl
  | cons c rest ih =>
    rw [utf8Len_cons, hex_utf8Size (h c (List.mem_cons_self c rest)),
      ih (fun x hx => h x (List.mem_cons_of_mem c hx)), List.length_cons]
    omega

theorem startsWith0x_decomp {a : List Char}
    (h : startsWithL "0x".data a = true) : ∃ t, a = '0' :: 'x' :: t := by
  rw [startsWithL_iff] at h
  match a, h with
  | c :: d :: t, h =>
    simp only [show ("0x".data).length = 2 from rfl, List.take_succ_cons,
      List.take_zero] at h
    have hc : c = '0' ∧ d = 'x' := by
      have := h
      simp only [show "0x".data = ['0', 'x'] from rfl] at this
      exact ⟨(List.cons_eq_cons.mp this).1,
        (List.cons_eq_cons.mp ((List.cons_eq_cons.mp this).2)).1⟩
    exact ⟨t, by rw [hc.1, hc.2]⟩

theorem ethereum_normalize_eq {a : List Char} (h : a ≠ []) :
    ethereum_wallet.normalize_address a = .ok (evmNormalizeStr a) := by
  unfold ethereum_wallet.normalize_address evmNormalizeStr
  rw [if_neg (by simpa [List.isEmpty_iff] using h)]
  by_cases hp : (startsWithL "0x".data a || startsWithL "0X".data a) = true
  · rw [if_pos hp, if_pos hp]
  · rw [if_neg hp, if_neg hp]

theorem polygon_normalize_eq {a : List Char} (h : a ≠ []) :
    polygon_wallet.normalize_address a = .ok (evmNormalizeStr a) := by
  unfold polygon_wallet.normalize_address evmNormalizeStr
  rw [if_neg (by simpa [List.isEmpty_iff] using h)]
  by_cases hp : (startsWithL "0x".data a || startsWithL "0X".data a) = true
  · rw [if_pos hp, if_pos hp]
  · rw [if_neg hp, if_neg hp]

theorem arbitrum_normalize_eq {a : List Char} (h : a ≠ []) :
    arbitrum_wallet.normalize_address a = .ok (evmNormalizeStr a) := by
  unfold arbitrum_wallet.normalize_address evmNormalizeStr
  rw [if_neg (by simpa [List.isEmpty_iff] using h)]
  by_cases hp : (startsWithL "0x".data a || startsWithL "0X".data a) = true
  · rw [if_pos hp, if_pos hp]
  · rw [if_neg hp, if_neg hp]

theorem ethereum_validate_ok_iff (n : List Char) :
    ethereum_wallet.validate_address n = .ok () ↔ evmOkPattern n := by
  unfold ethereum_wallet.validate_address
  constructor
  · intro hok
    split_ifs at hok with h1 h2 h3
    obtain ⟨t, rfl⟩ := startsWith0x_decomp h1
    rw [show ('0' :: 'x' :: t).drop 2 = t from rfl, List.all_eq_true] at h3
    have hhex : ∀ c ∈ t, isHexDigitChar c = true := fun c hc => h3 c hc
    refine ⟨t, rfl, ?_, hhex⟩
    have h42 : utf8Len ('0' :: 'x' :: t) = 42 := by omega
    rw [utf8Len_cons, utf8Len_cons, utf8Len_hex_eq_length hhex] at h42
    have h0 : ('0' : Char).utf8Size = 1 := by decide
    have hx : ('x' : Char).utf8Size = 1 := by decide
    omega
  · rintro ⟨t, rfl, hlen, hhex⟩
    have hpre : startsWithL "0x".data ('0' :: 'x' :: t) = true := rfl
    have h42 : utf8Len ('0' :: 'x' :: t) = 42 := by
      rw [utf8Len_cons, utf8Len_cons, utf8Len_hex_eq_length hhex]
      have h0 : ('0' : Char).utf8Size = 1 := by decide
      have hx : ('x' : Char).utf8Size = 1 := by decide
      omega
    have hall : (('0' :: 'x' :: t).drop 2).all isHexDigitChar = true := by
      rw [show ('0' :: 'x' :: t).drop 2 = t from rfl, List.all_eq_true]
      exact fun c hc => hhex c hc
    rw [if_neg (by rw [hpre]; exact fun hcon => hcon rfl),
      if_neg (by omega), if_neg (by rw [hall]; exact fun hcon => hcon rfl)]

theorem polygon_validate_ok_iff (n : List Char) :
    polygon_wallet.validate_address n = .ok () ↔ evmOkPattern n := by
  unfold polygon_wallet.validate_address
  constructor
  · intro hok
    split_ifs at hok with h1 h2 h3
    obtain ⟨t, rfl⟩ := startsWith0x_decomp h1
    rw [show ('0' :: 'x' :: t).drop 2 = t from rfl, List.all_eq_true] at h3
    have hhex : ∀ c ∈ t, isHexDigitChar c = true := fun c hc => h3 c hc
    refine ⟨t, rfl, ?_, hhex⟩
    have h42 : utf8Len ('0' :: 'x' :: t) = 42 := by omega
    rw [utf8Len_cons, utf8Len_cons, utf8Len_hex_eq_length hhex] at h42
    have h0 : ('0' : Char).utf8Size = 1 := by decide
    have hx : ('x' : Char).utf8Size = 1 := by decide
    omega
  · rintro ⟨t, rfl, hlen, hhex⟩
    have hpre : startsWithL "0x".data ('0' :: 'x' :: t) = true := rfl
    have h42 : utf8Len ('0' :: 'x' :: t) = 42 := by
      rw [utf8Len_cons, utf8Len_cons, utf8Len_hex_eq_length hhex]
      have h0 : ('0' : Char).utf8Size = 1 := by decide
      have hx : ('x' : Char).utf8Size = 1 := by decide
      omega
    have hall : (('0' :: 'x' :: t).drop 2).all isHexDigitChar = true := by
      rw [show ('0' :: 'x' :: t).drop 2 = t from rfl, List.all_eq_true]
      exact fun c hc => hhex c hc
    rw [if_neg (by rw [hpre]; exact fun hcon => hcon rfl),
      if_neg (by omega), if_neg (by rw [hall]; exact fun hcon => hcon rfl)]

theorem arbitrum_validate_ok_iff (n : List Char) :
    arbitrum_wallet.validate_address n = .ok () ↔ evmOkPattern n := by
  unfold arbitrum_wallet.validate_address
  constructor
  · intro hok
    split_ifs at hok with h1 h2 h3
    obtain ⟨t, rfl⟩ := startsWith0x_decomp h1
    rw [show ('0' :: 'x' :: t).drop 2 = t from rfl, List.all_eq_true] at h3
    have hhex : ∀ c ∈ t, isHexDigitChar c = true := fun c hc => h3 c hc
    refine ⟨t, rfl, ?_, hhex⟩
    have h42 : utf8Len ('0' :: 'x' :: t) = 42 := by omega
    rw [utf8Len_cons, utf8Len_cons, utf8Len_hex_eq_length hhex] at h42
    have h0 : ('0' : Char).utf8Size = 1 := by decide
    have hx : ('x' : Char).utf8Size = 1 := by decide
    omega
  · rintro ⟨t, rfl, hlen, hhex⟩
    have hpre : startsWithL "0x".data ('0' :: 'x' :: t) = true := rfl
    have h42 : utf8Len ('0' :: 'x' :: t) = 42 := by
      rw [utf8Len_cons, utf8Len_cons, utf8Len_hex_eq_length hhex]
      have h0 : ('0' : Char).utf8Size = 1 := by decide
      have hx : ('x' : Char).utf8Size = 1 := by decide
      omega
    have hall : (('0' :: 'x' :: t).drop 2).all isHexDigitChar = true := by
      rw [show ('0' :: 'x' :: t).drop 2 = t from rfl, List.all_eq_true]
      exact fun c hc => hhex c hc
    rw [if_neg (by rw [hpre]; exact fun hcon => hcon rfl),
      if_neg (by omega), if_neg (by rw [hall]; exact fun hcon => hcon rfl)]

/-! ## Bitcoin and Tron validator characterizations -/

theorem bitcoin_validate_ok_iff (a : List Char) :
    bitcoin_wallet.validate_address a = .ok () ↔
      a ≠ [] ∧ 26 ≤ utf8Len a ∧ utf8Len a ≤ 62 ∧
        (startsWithL "1".data a = true ∨ startsWithL "3".data a = true
          ∨ startsWithL "bc1".data a = true) := by
  unfold bitcoin_wallet.validate_address
  constructor
  · intro hok
    split_ifs at hok with h1 h2 h3
    refine ⟨?_, by omega, by omega, ?_⟩
    · simpa [List.isEmpty_iff] using h1
    · by_contra hcon
      push_neg at hcon
      exact h3 ⟨by simp [hcon.1], by simp [hcon.2.1], by simp [hcon.2.2]⟩
  · rintro ⟨h1, h2, h3, h4⟩
    rw [if_neg (by simpa [List.isEmpty_iff] using h1), if_neg (by omega),
      if_neg (by rintro ⟨p1, p3, pb⟩; rcases h4 with h | h | h <;> simp_all)]

theorem tron_validate_ok_iff (a : List Char) :
    tron_wallet.validate_address a = .ok () ↔
      utf8Len a = 34 ∧ startsWithL "T".data a = true ∧
        ∃ d, from_base58 a = some d ∧ d.length = 25 ∧ d.headD 0 = 0x41 ∧
          (sha256 (sha256 (d.take 21))).take 4 = d.drop 21 := by
  unfold tron_wallet.validate_address
  constructor
  · intro hok
    by_cases hc : utf8Len a ≠ 34 ∨ ¬ startsWithL "T".data a
    · rw [if_pos hc] at hok
      exact absurd hok (by simp)
    · rw [if_neg hc] at hok
      push_neg at hc
      cases hb : from_base58 a with
      | none =>
        rw [hb] at hok
        exact absurd hok (by simp)
      | some d =>
        rw [hb] at hok
        have hok2 : (if d.length ≠ 25 then (Except.error "Invalid decoded length" : Except String Unit)
            else if d.headD 0 ≠ 0x41 then .error "Invalid Tron version byte"
            else if d.drop 21 ≠ (sha256 (sha256 (d.take 21))).take 4 then
              .error "Invalid address checksum"
            else .ok ()) = .ok () := hok
        split_ifs at hok2 with hl hv hcs
        push_neg at hl hv hcs
        exact ⟨hc.1, by simpa using hc.2, d, rfl, hl, hv, hcs.symm⟩
  · rintro ⟨h34, hT, d, hb, hlen, hver, hchk⟩
    rw [if_neg (by push_neg; exact ⟨h34, by simp [hT]⟩), hb]
    show (if d.length ≠ 25 then (Except.error "Invalid decoded length" : Except String Unit)
        else if d.headD 0 ≠ 0x41 then .error "Invalid Tron version byte"
        else if d.drop 21 ≠ (sha256 (sha256 (d.take 21))).take 4 then
          .error "Invalid address checksum"
        else .ok ()) = .ok ()
    rw [if_neg (by omega), if_neg (by simp only [ne_eq, not_not]; exact hver),
      if_neg (by simp only [ne_eq, not_not]; exact hchk.symm)]

/-! ## Shape of fixed-precision formatting -/

/-- `fmtF64 p` (for `p ≥ 1`) always prints an all-digit integer part, a
dot, and exactly `p` fractional digits — trailing zeros included. -/
theorem fmtF64_shape {p : ℕ} (hp : p ≠ 0) (x : F64) :
    ∃ ip fp, fmtF64 p x = ip ++ '.' :: fp ∧ fp.length = p ∧
      (∀ c ∈ fp, isDigitChar c = true) ∧ (∀ c ∈ ip, isDigitChar c = true) := by
  unfold fmtF64
  rw [if_neg hp]
  refine ⟨_, _, rfl, ?_, padZeros_digits (natToDecChars_digits _), natToDecChars_digits _⟩
  by_cases h : (if 0 ≤ x.2 then x.1 * 2 ^ x.2.toNat * 10 ^ p
      else roundHalfEvenDiv (x.1 * 10 ^ p) (2 ^ (-x.2).toNat)) % 10 ^ p = 0
  · rw [h]
    unfold natToDecChars
    rw [if_pos rfl]
    apply padZeros_length
    simpa using Nat.one_le_iff_ne_zero.mpr hp
  · exact padZeros_length (natToDecChars_length_le h
      (Nat.mod_lt _ (Nat.pos_pow_of_pos p (by norm_num))))

/-- Truncated `ℕ` subtraction is exactly `u64::saturating_sub` —
`max (f - s) 0` over the integers. -/
theorem natSub_eq_int_max (f s : ℕ) :
    ((f - s : ℕ) : ℤ) = max ((f : ℤ) - (s : ℤ)) 0 := by
  omega

/-! ## Lower-casing facts -/

theorem lowerChar_idem (c : Char) : lowerChar (lowerChar c) = lowerChar c := by
  by_cases h : 65 ≤ c.toNat ∧ c.toNat ≤ 90
  · unfold lowerChar
    rw [if_pos h]
    rw [if_neg]
    intro hcon
    have := lowerChar_upper_toNat h.1 h.2
    unfold lowerChar at this
    rw [if_pos h] at this
    omega
  · unfold lowerChar
    rw [if_neg h, if_neg h]

theorem lowerStr_idem (s : List Char) : lowerStr (lowerStr s) = lowerStr s := by
  unfold lowerStr
  rw [List.map_map]
  exact List.map_congr_left (fun c _ => lowerChar_idem c)

theorem startsWith2_decomp {c1 c2 : Char} {a : List Char}
    (h : startsWithL [c1, c2] a = true) : ∃ t, a = c1 :: c2 :: t := by
  rw [startsWithL_iff] at h
  match a, h with
  | x :: y :: t, h =>
    simp only [List.length_cons, List.length_nil, List.take_succ_cons, List.take_zero] at h
    have h1 := (List.cons_eq_cons.mp h).1
    have h2 := (List.cons_eq_cons.mp ((List.cons_eq_cons.mp h).2)).1
    exact ⟨t, by rw [h1, h2]⟩

/-! ## Inversion of the Ethereum client pipeline -/

theorem ethereum_get_balance_inv {a : List Char} {net : NetResponse JsonRpcResponse}
    {out : WalletBalance} (h : ethereum_wallet.get_balance a net = .ok out) :
    ∃ n, ethereum_wallet.normalize_address a = .ok n ∧
      ethereum_wallet.validate_address n = .ok () ∧ out.address = n := by
  unfold ethereum_wallet.get_balance at h
  cases hnorm : ethereum_wallet.normalize_address a with
  | error e => rw [hnorm] at h; exact Except.noConfusion h
  | ok n =>
    rw [hnorm] at h
    have h1 : (ethereum_wallet.validate_address n >>= fun _ =>
        ethereum_wallet.handle_response n net) = .ok out := h
    cases hval : ethereum_wallet.validate_address n with
    | error e => rw [hval] at h1; exact Except.noConfusion h1
    | ok u =>
      cases u
      rw [hval] at h1
      have h2 : ethereum_wallet.handle_response n net = .ok out := h1
      refine ⟨n, rfl, hval, ?_⟩
      unfold ethereum_wallet.handle_response at h2
      split at h2
      · exact Except.noConfusion h2
      · exact Except.noConfusion h2
      · exact Except.noConfusion h2
      · rename_i r
        split at h2
        · exact Except.noConfusion h2
        · split at h2
          · exact Except.noConfusion h2
          · rename_i hex heq
            cases hph : ethereum_wallet.parse_hex_to_u128 hex with
            | error e => rw [hph] at h2; exact Except.noConfusion h2
            | ok wei =>
              rw [hph] at h2
              have h3 : Except.ok (WalletBalance.new n (ethereum_wallet.wei_to_eth wei)
                  "ethereum".data "ETH".data) = .ok out := h2
              rw [← Except.ok.inj h3]
              rfl

theorem polygon_get_balance_inv {a : List Char} {net : NetResponse JsonRpcResponse}
    {out : WalletBalance} (h : polygon_wallet.get_balance a net = .ok out) :
    ∃ n, polygon_wallet.normalize_address a = .ok n ∧
      polygon_wallet.validate_address n = .ok () ∧ out.address = n := by
  unfold polygon_wallet.get_balance at h
  cases hnorm : polygon_wallet.normalize_address a with
  | error e => rw [hnorm] at h; exact Except.noConfusion h
  | ok n =>
    rw [hnorm] at h
    have h1 : (polygon_wallet.validate_address n >>= fun _ =>
        polygon_wallet.handle_response n net) = .ok out := h
    cases hval : polygon_wallet.validate_address n with
    | error e => rw [hval] at h1; exact Except.noConfusion h1
    | ok u =>
      cases u
      rw [hval] at h1
      have h2 : polygon_wallet.handle_response n net = .ok out := h1
      refine ⟨n, rfl, hval, ?_⟩
      unfold polygon_wallet.handle_response at h2
      split at h2
      · exact Except.noConfusion h2
      · exact Except.noConfusion h2
      · exact Except.noConfusion h2
      · rename_i r
        split at h2
        · exact Except.noConfusion h2
        · split at h2
          · exact Except.noConfusion h2
          · rename_i hex heq
            cases hph : polygon_wallet.parse_hex_to_u128 hex with
            | error e => rw [hph] at h2; exact Except.noConfusion h2
            | ok wei =>
              rw [hph] at h2
              have h3 : Except.ok (WalletBalance.new n (polygon_wallet.wei_to_eth wei)
                  "polygon".data "MATIC".data) = .ok out := h2
              rw [← Except.ok.inj h3]
              rfl

theorem arbitrum_get_balance_inv {a : List Char} {net : NetResponse JsonRpcResponse}
    {out : WalletBalance} (h : arbitrum_wallet.get_balance a net = .ok out) :
    ∃ n, arbitrum_wallet.normalize_address a = .ok n ∧
      arbitrum_wallet.validate_address n = .ok () ∧ out.address = n := by
  unfold arbitrum_wallet.get_balance at h
  cases hnorm : arbitrum_wallet.normalize_address a with
  | error e => rw [hnorm] at h; exact Except.noConfusion h
  | ok n =>
    rw [hnorm] at h
    have h1 : (arbitrum_wallet.validate_address n >>= fun _ =>
        arbitrum_wallet.handle_response n net) = .ok out := h
    cases hval : arbitrum_wallet.validate_address n with
    | error e => rw [hval] at h1; exact Except.noConfusion h1
    | ok u =>
      cases u
      rw [hval] at h1
      have h2 : arbitrum_wallet.handle_response n net = .ok out := h1
      refine ⟨n, rfl, hval, ?_⟩
      unfold arbitrum_wallet.handle_response at h2
      split at h2
      · exact Except.noConfusion h2
      · exact Except.noConfusion h2
      · exact Except.noConfusion h2
      · rename_i r
        split at h2
        · exact Except.noConfusion h2
        · split at h2
          · exact Except.noConfusion h2
          · rename_i hex heq
            cases hph : arbitrum_wallet.parse_hex_to_u128 hex with
            | error e => rw [hph] at h2; exact Except.noConfusion h2
            | ok wei =>
              rw [hph] at h2
              have h3 : Except.ok (WalletBalance.new n (arbitrum_wallet.wei_to_eth wei)
                  "arbitrum".data "ETH".data) = .ok out := h2
              rw [← Except.ok.inj h3]
              rfl

/-! ## Response-stage equations for the Bitcoin and Tron clients -/

theorem bitcoin_get_balance_parsed (a : List Char) (f s : ℕ) :
    bitcoin_wallet.get_balance a (.parsed ⟨⟨f, s⟩⟩)
      = (bitcoin_wallet.validate_address a).map (fun _ =>
          WalletBalance.new a
            (fmtF64 8 (f64Div (f64OfNat (f - s)) (f64OfNat 100000000)))
            "bitcoin".data "BTC".data) := by
  unfold bitcoin_wallet.get_balance
  cases hval : bitcoin_wallet.validate_address a with
  | error e => rfl
  | ok u => cases u; rfl

theorem tron_get_balance_zero (a : List Char) (r : tron_wallet.AccountResponse)
    (hr : r.success = false ∨ r.data = []) :
    tron_wallet.get_balance a (.parsed r)
      = (tron_wallet.validate_address (trimChars a)).map (fun _ =>
          WalletBalance.new (trimChars a) "0.000000".data "tron".data "TRX".data) := by
  unfold tron_wallet.get_balance
  show (tron_wallet.validate_address (trimChars a) >>= fun _ =>
      tron_wallet.handle_response (trimChars a) (.parsed r))
    = (tron_wallet.validate_address (trimChars a)).map (fun _ =>
        WalletBalance.new (trimChars a) "0.000000".data "tron".data "TRX".data)
  cases hval : tron_wallet.validate_address (trimChars a) with
  | error e => rfl
  | ok u =>
    cases u
    have hcond : (decide (¬ r.success = true) || r.data.isEmpty) = true := by
      rcases hr with h | h
      · simp [h]
      · simp [h]
    show tron_wallet.handle_response (trimChars a) (.parsed r)
      = Except.ok (WalletBalance.new (trimChars a) "0.000000".data "tron".data "TRX".data)
    simp only [tron_wallet.handle_response]
    rw [if_pos hcond]
    have : fmtF64 6 (f64OfNat 0) = "0.000000".data := by decide
    rw [this]
    rfl

theorem tron_get_balance_absent (a : List Char) (rest : List tron_wallet.AccountData) :
    tron_wallet.get_balance a (.parsed ⟨true, ⟨none⟩ :: rest⟩)
      = (tron_wallet.validate_address (trimChars a)).map (fun _ =>
          WalletBalance.new (trimChars a) "0.000000".data "tron".data "TRX".data) := by
  unfold tron_wallet.get_balance
  show (tron_wallet.validate_address (trimChars a) >>= fun _ =>
      tron_wallet.handle_response (trimChars a) (.parsed ⟨true, ⟨none⟩ :: rest⟩))
    = (tron_wallet.validate_address (trimChars a)).map (fun _ =>
        WalletBalance.new (trimChars a) "0.000000".data "tron".data "TRX".data)
  cases hval : tron_wallet.validate_address (trimChars a) with
  | error e => rfl
  | ok u =>
    cases u
    show tron_wallet.handle_response (trimChars a) (.parsed ⟨true, ⟨none⟩ :: rest⟩)
      = Except.ok (WalletBalance.new (trimChars a) "0.000000".data "tron".data "TRX".data)
    simp only [tron_wallet.handle_response]
    rw [if_neg (by simp)]
    show Except.ok (WalletBalance.new (trimChars a)
        (fmtF64 6 (f64Div (f64OfNat 0) (f64OfNat 1000000))) "tron".data "TRX".data)
      = Except.ok (WalletBalance.new (trimChars a) "0.000000".data "tron".data "TRX".data)
    have h0 : fmtF64 6 (f64Div (f64OfNat 0) (f64OfNat 1000000)) = "0.000000".data := by decide
    rw [h0]

/-! ## Validation short-circuits each client before the network stage -/

theorem ethereum_short_circuit {a : List Char} {e : String}
    (h : (ethereum_wallet.normalize_address a >>= ethereum_wallet.validate_address)
      = .error e) (net : NetResponse JsonRpcResponse) :
    ethereum_wallet.get_balance a net = .error e := by
  unfold ethereum_wallet.get_balance
  cases hnorm : ethereum_wallet.normalize_address a with
  | error e' =>
    rw [hnorm] at h
    have h' : (Except.error e' : Except String Unit) = .error e := h
    rw [Except.error.inj h']
    rfl
  | ok n =>
    rw [hnorm] at h
    have h' : ethereum_wallet.validate_address n = .error e := h
    show (ethereum_wallet.validate_address n >>= fun _ =>
      ethereum_wallet.handle_response n net) = .error e
    rw [h']
    rfl

theorem polygon_short_circuit {a : List Char} {e : String}
    (h : (polygon_wallet.normalize_address a >>= polygon_wallet.validate_address)
      = .error e) (net : NetResponse JsonRpcResponse) :
    polygon_wallet.get_balance a net = .error e := by
  unfold polygon_wallet.get_balance
  cases hnorm : polygon_wallet.normalize_address a with
  | error e' =>
    rw [hnorm] at h
    have h' : (Except.error e' : Except String Unit) = .error e := h
    rw [Except.error.inj h']
    rfl
  | ok n =>
    rw [hnorm] at h
    have h' : polygon_wallet.validate_address n = .error e := h
    show (polygon_wallet.validate_address n >>= fun _ =>
      polygon_wallet.handle_response n net) = .error e
    rw [h']
    rfl

theorem arbitrum_short_circuit {a : List Char} {e : String}
    (h : (arbitrum_wallet.normalize_address a >>= arbitrum_wallet.validate_address)
      = .error e) (net : NetResponse JsonRpcResponse) :
    arbitrum_wallet.get_balance a net = .error e := by
  unfold arbitrum_wallet.get_balance
  cases hnorm : arbitrum_wallet.normalize_address a with
  | error e' =>
    rw [hnorm] at h
    have h' : (Except.error e' : Except String Unit) = .error e := h
    rw [Except.error.inj h']
    rfl
  | ok n =>
    rw [hnorm] at h
    have h' : arbitrum_wallet.validate_address n = .error e := h
    show (arbitrum_wallet.validate_address n >>= fun _ =>
      arbitrum_wallet.handle_response n net) = .error e
    rw [h']
    rfl

theorem bitcoin_short_circuit {a : List Char} {e : String}
    (h : bitcoin_wallet.validate_address a = .error e) (net : NetResponse bitcoin_wallet.BlockstreamResponse) :
    bitcoin_wallet.get_balance a net = .error e := by
  unfold bitcoin_wallet.get_balance
  rw [h]
  rfl

theorem tron_short_circuit {a : List Char} {e : String}
    (h : tron_wallet.validate_address (trimChars a) = .error e)
    (net : NetResponse tron_wallet.AccountResponse) :
    tron_wallet.get_balance a net = .error e := by
  unfold tron_wallet.get_balance
  show (tron_wallet.validate_address (trimChars a) >>= fun _ =>
      tron_wallet.handle_response (trimChars a) net) = .error e
  rw [h]
  rfl

/-! ## Claim theorems -/

set_option maxRecDepth 100000 in
/-- C1: the claim says the Bitcoin and Tron balance strings, parsed
back as rationals, equal `s / 10^8` and `u / 10^6` exactly — including
at and above `2^53` — because the conversion uses exact integer
arithmetic and never goes through floating point.  The code computes
`balance_sats as f64 / 100_000_000.0` (and the sun analogue), i.e. it
does go through `f64`.  At the failing input `s = 2^53 + 1 =
9007199254740993` satoshis the cast to `f64` already loses the value:
the printed balance is `90071992.54740992`, whose rational value is
not `s / 10^8`; the Tron client fails the same way at `u = 2^53 + 1`
sun.  This theorem evaluates both clients at the failing inputs. -/
theorem c1_float_conversion_inexact :
    bitcoin_wallet.get_balance "1A1zP1eP5QGefi2DMPTfTL5SLmv7DivfNa".data
        (.parsed ⟨⟨9007199254740993, 0⟩⟩)
      = .ok (WalletBalance.new "1A1zP1eP5QGefi2DMPTfTL5SLmv7DivfNa".data
          "90071992.54740992".data "bitcoin".data "BTC".data) ∧
    parseRat? "90071992.54740992".data ≠ some ((9007199254740993 : ℚ) / 10 ^ 8) ∧
    tron_wallet.get_balance "TR7NHqjeKQxGTCi8q8ZY4pL8otSzgjLj6t".data
        (.parsed ⟨true, [⟨some 9007199254740993⟩]⟩)
      = .ok (WalletBalance.new "TR7NHqjeKQxGTCi8q8ZY4pL8otSzgjLj6t".data
          "9007199254.740992".data "tron".data "TRX".data) ∧
    parseRat? "9007199254.740992".data ≠ some ((9007199254740993 : ℚ) / 10 ^ 6) := by
  refine ⟨by decide, ?_, by decide, ?_⟩
  · intro hcon
    rw [parseRat?,
      show parseDec? "90071992.54740992".data = some (9007199254740992, 8) from by decide,
      Option.map_some'] at hcon
    have h := Option.some.inj hcon
    norm_num at h
  · intro hcon
    rw [parseRat?,
      show parseDec? "9007199254.740992".data = some (9007199254740992, 6) from by decide,
      Option.map_some'] at hcon
    have h := Option.some.inj hcon
    norm_num at h

/-- C2: `wei_to_eth` returns `"0"` for zero wei; the plain decimal of
`w / 10^18` when the fraction vanishes; otherwise whole part, dot, and
the 18-digit zero-padded fraction with trailing zeros stripped; in
particular `wei_to_eth (10^18) = "1"`, and parsing the output back as
a rational always recovers `w / 10^18` exactly. -/
theorem c2_wei_to_eth_exact (w : ℕ) (_hw : w < 2 ^ 128) :
    (w = 0 → ethereum_wallet.wei_to_eth w = "0".data) ∧
    (w ≠ 0 → w % 10 ^ 18 = 0 →
      ethereum_wallet.wei_to_eth w = natToDecChars (w / 10 ^ 18)) ∧
    (w ≠ 0 → w % 10 ^ 18 ≠ 0 →
      ethereum_wallet.wei_to_eth w = natToDecChars (w / 10 ^ 18)
        ++ '.' :: trimTrailing0 (padZeros 18 (natToDecChars (w % 10 ^ 18)))) ∧
    ethereum_wallet.wei_to_eth (10 ^ 18) = "1".data ∧
    parseRat? (ethereum_wallet.wei_to_eth w) = some ((w : ℚ) / 10 ^ 18) := by
  have hlit : (1000000000000000000 : ℕ) = 10 ^ 18 := by norm_num
  refine ⟨?_, ?_, ?_, by decide, wei_to_eth_parse w⟩
  · intro h0
    rw [wei_to_eth_eq, if_pos h0]
  · intro h0 hf
    rw [wei_to_eth_eq, if_neg h0, hlit, if_pos hf]
  · intro h0 hf
    rw [wei_to_eth_eq, if_neg h0, hlit, if_neg hf]

/-- C2 witness at `w = 1.5 * 10^18`. -/
theorem c2_wei_to_eth_exact_witness :
    ethereum_wallet.wei_to_eth 1500000000000000000 = "1.5".data ∧
    parseRat? "1.5".data = some ((1500000000000000000 : ℚ) / 10 ^ 18) := by
  have h := c2_wei_to_eth_exact 1500000000000000000 (by norm_num)
  have hs : ethereum_wallet.wei_to_eth 1500000000000000000 = "1.5".data := by decide
  exact ⟨hs, hs ▸ h.2.2.2.2⟩

/-- C3 counterexample: the claim asserts the `Network` enumeration
contains Polygon, Arbitrum, Tron and Base, each parseable from its
canonical lowercase name.  The enumeration in `src/lib.rs` has only
`Bitcoin` and `Ethereum`, and the parser rejects `"tron"` (and
`"polygon"`, `"arbitrum"`, `"base"`) as unsupported. -/
theorem c3_counterexample_tron_rejected :
    Network.fromStr "tron".data = .error "Unsupported network: tron" ∧
    Network.fromStr "polygon".data = .error "Unsupported network: polygon" ∧
    Network.fromStr "base".data = .error "Unsupported network: base" := by
  refine ⟨?_, ?_, ?_⟩ <;> decide

/-- C3 (amended): the `Network` enumeration is closed with exactly the
values `Bitcoin` and `Ethereum`; parsing the canonical lowercase name
of each value (and the aliases `"btc"`, `"eth"`) yields that value,
parsing is case-insensitive (a token and its lower-casing succeed
identically), `Display` output is the canonical name and is already
lowercase, and every other token is rejected with an "Unsupported
network" error naming the token. -/
theorem c3_network_enum_amended :
    (∀ n : Network, Network.fromStr (Network.toStr n) = .ok n) ∧
    Network.fromStr "btc".data = .ok .Bitcoin ∧
    Network.fromStr "eth".data = .ok .Ethereum ∧
    (∀ s : List Char, ∀ n : Network,
      Network.fromStr s = .ok n ↔ Network.fromStr (lowerStr s) = .ok n) ∧
    (∀ n : Network, lowerStr (Network.toStr n) = Network.toStr n) ∧
    (∀ s : List Char,
      lowerStr s ∉ ([ "bitcoin".data, "btc".data, "ethereum".data, "eth".data ] : List (List Char)) →
      Network.fromStr s = .error ("Unsupported network: " ++ String.mk s)) := by
  refine ⟨?_, by decide, by decide, ?_, ?_, ?_⟩
  · intro n
    cases n <;> decide
  · intro s n
    unfold Network.fromStr
    rw [lowerStr_idem]
    split_ifs <;> simp
  · intro n
    cases n <;> decide
  · intro s hmem
    simp only [List.mem_cons, List.mem_singleton, not_or] at hmem
    unfold Network.fromStr
    rw [if_neg (by tauto), if_neg (by tauto)]

/-- C3 witness: an arbitrary unknown token (`"doge"`) is rejected with
the "unsupported network" error, via the amended theorem. -/
theorem c3_network_enum_amended_witness :
    Network.fromStr "doge".data = .error "Unsupported network: doge" := by
  have h := c3_network_enum_amended.2.2.2.2.2 "doge".data (by decide)
  exact h

/-- C4: the Tron validator accepts exactly the strings with 34 bytes
and a leading `T` that Base58-decode to 25 bytes whose first byte is
`0x41` and whose last 4 bytes equal the first 4 bytes of the double
SHA-256 of the first 21 bytes; each stage of the check fails with its
own distinct message (the 34-character and leading-`T` requirements
form one stage, checked together in the source). -/
theorem c4_tron_validator (a : List Char) :
    (tron_wallet.validate_address a = .ok () ↔
      utf8Len a = 34 ∧ startsWithL "T".data a = true ∧
        ∃ d, from_base58 a = some d ∧ d.length = 25 ∧ d.headD 0 = 0x41 ∧
          (sha256 (sha256 (d.take 21))).take 4 = d.drop 21) ∧
    (¬ (utf8Len a = 34 ∧ startsWithL "T".data a = true) →
      tron_wallet.validate_address a
        = .error "Invalid Tron address: must be 34 chars starting with 'T'") ∧
    (utf8Len a = 34 → startsWithL "T".data a = true → from_base58 a = none →
      tron_wallet.validate_address a = .error "Invalid Base58 encoding") ∧
    (∀ d, utf8Len a = 34 → startsWithL "T".data a = true → from_base58 a = some d →
      d.length ≠ 25 → tron_wallet.validate_address a = .error "Invalid decoded length") ∧
    (∀ d, utf8Len a = 34 → startsWithL "T".data a = true → from_base58 a = some d →
      d.length = 25 → d.headD 0 ≠ 0x41 →
      tron_wallet.validate_address a = .error "Invalid Tron version byte") ∧
    (∀ d, utf8Len a = 34 → startsWithL "T".data a = true → from_base58 a = some d →
      d.length = 25 → d.headD 0 = 0x41 → d.drop 21 ≠ (sha256 (sha256 (d.take 21))).take 4 →
      tron_wallet.validate_address a = .error "Invalid address checksum") ∧
    ([ "Invalid Tron address: must be 34 chars starting with 'T'", "Invalid Base58 encoding",
       "Invalid decoded length", "Invalid Tron version byte",
       "Invalid address checksum" ] : List String).Nodup := by
  refine ⟨tron_validate_ok_iff a, ?_, ?_, ?_, ?_, ?_, by decide⟩
  · intro h
    unfold tron_wallet.validate_address
    rw [if_pos]
    rcases Decidable.not_and_iff_or_not.mp h with h' | h'
    · exact Or.inl h'
    · exact Or.inr (by simpa using h')
  · intro h34 hT hb
    unfold tron_wallet.validate_address
    rw [if_neg (by push_neg; exact ⟨h34, by simp [hT]⟩), hb]
  · intro d h34 hT hb hlen
    unfold tron_wallet.validate_address
    rw [if_neg (by push_neg; exact ⟨h34, by simp [hT]⟩), hb]
    show (if d.length ≠ 25 then (Except.error "Invalid decoded length" : Except String Unit)
        else if d.headD 0 ≠ 0x41 then .error "Invalid Tron version byte"
        else if d.drop 21 ≠ (sha256 (sha256 (d.take 21))).take 4 then
          .error "Invalid address checksum"
        else .ok ()) = .error "Invalid decoded length"
    rw [if_pos hlen]
  · intro d h34 hT hb hlen hver
    unfold tron_wallet.validate_address
    rw [if_neg (by push_neg; exact ⟨h34, by simp [hT]⟩), hb]
    show (if d.length ≠ 25 then (Except.error "Invalid decoded length" : Except String Unit)
        else if d.headD 0 ≠ 0x41 then .error "Invalid Tron version byte"
        else if d.drop 21 ≠ (sha256 (sha256 (d.take 21))).take 4 then
          .error "Invalid address checksum"
        else .ok ()) = .error "Invalid Tron version byte"
    rw [if_neg (by omega), if_pos hver]
  · intro d h34 hT hb hlen hver hchk
    unfold tron_wallet.validate_address
    rw [if_neg (by push_neg; exact ⟨h34, by simp [hT]⟩), hb]
    show (if d.length ≠ 25 then (Except.error "Invalid decoded length" : Except String Unit)
        else if d.headD 0 ≠ 0x41 then .error "Invalid Tron version byte"
        else if d.drop 21 ≠ (sha256 (sha256 (d.take 21))).take 4 then
          .error "Invalid address checksum"
        else .ok ()) = .error "Invalid address checksum"
    rw [if_neg (by omega), if_neg (by simp only [ne_eq, not_not]; exact hver), if_pos hchk]

set_option maxRecDepth 100000 in
/-- C4 witness: the stage-1 error at a wrong-length input, and — via
the iff applied at a real Tron address (the USDT contract) — an
accepted address. -/
theorem c4_tron_validator_witness :
    tron_wallet.validate_address "X".data
      = .error "Invalid Tron address: must be 34 chars starting with 'T'" ∧
    tron_wallet.validate_address "TR7NHqjeKQxGTCi8q8ZY4pL8otSzgjLj6t".data = .ok () := by
  constructor
  · exact (c4_tron_validator "X".data).2.1 (by decide)
  · exact (c4_tron_validator "TR7NHqjeKQxGTCi8q8ZY4pL8otSzgjLj6t".data).1.mpr (by decide)

/-- C5: for every EVM-chain input (Ethereum, Polygon, Arbitrum), the
empty string is rejected before normalization; a non-empty input is
normalized by lower-casing and `0x`-prefixing (unless a `0x`/`0X`
prefix is present); the normalize-then-validate pipeline succeeds iff
the normalized string is exactly `0x` followed by exactly 40 hex
characters; and, in particular, 40 hex digits in any letter case with
no prefix are accepted. -/
theorem c5_evm_address_validation (a : List Char) :
    (a = [] →
      ethereum_wallet.normalize_address a = .error "Ethereum address cannot be empty" ∧
      polygon_wallet.normalize_address a = .error "Polygon address cannot be empty" ∧
      arbitrum_wallet.normalize_address a = .error "Arbitrum address cannot be empty") ∧
    (a ≠ [] →
      ethereum_wallet.normalize_address a = .ok (evmNormalizeStr a) ∧
      polygon_wallet.normalize_address a = .ok (evmNormalizeStr a) ∧
      arbitrum_wallet.normalize_address a = .ok (evmNormalizeStr a)) ∧
    ((ethereum_wallet.normalize_address a >>= ethereum_wallet.validate_address) = .ok () ↔
      a ≠ [] ∧ evmOkPattern (evmNormalizeStr a)) ∧
    ((polygon_wallet.normalize_address a >>= polygon_wallet.validate_address) = .ok () ↔
      a ≠ [] ∧ evmOkPattern (evmNormalizeStr a)) ∧
    ((arbitrum_wallet.normalize_address a >>= arbitrum_wallet.validate_address) = .ok () ↔
      a ≠ [] ∧ evmOkPattern (evmNormalizeStr a)) ∧
    (a.length = 40 → (∀ c ∈ a, isHexDigitChar c = true) →
      (ethereum_wallet.normalize_address a >>= ethereum_wallet.validate_address) = .ok ()
      ∧ evmOkPattern (evmNormalizeStr a)) := by
  have hpipe : ∀ (norm : Except String (List Char)) (v : List Char → Except String Unit)
      (n : List Char), norm = .ok n → (norm >>= v) = v n := by
    intro norm v n h
    rw [h]
    rfl
  have hempty : (a = []) →
      ethereum_wallet.normalize_address a = .error "Ethereum address cannot be empty" ∧
      polygon_wallet.normalize_address a = .error "Polygon address cannot be empty" ∧
      arbitrum_wallet.normalize_address a = .error "Arbitrum address cannot be empty" := by
    rintro rfl
    refine ⟨rfl, rfl, rfl⟩
  have hiff : ∀ (norm : Except String (List Char)) (v : List Char → Except String Unit),
      (a ≠ [] → norm = .ok (evmNormalizeStr a)) → (a = [] → ∃ e, norm = .error e) →
      (∀ n, v n = .ok () ↔ evmOkPattern n) →
      ((norm >>= v) = .ok () ↔ a ≠ [] ∧ evmOkPattern (evmNormalizeStr a)) := by
    intro norm v hok herr hv
    by_cases ha : a = []
    · obtain ⟨e, he⟩ := herr ha
      rw [he]
      constructor
      · intro hcon
        exact Except.noConfusion hcon
      · rintro ⟨hne, -⟩
        exact absurd ha hne
    · rw [hpipe norm v _ (hok ha), hv]
      simp [ha]
  refine ⟨hempty, ?_, ?_, ?_, ?_, ?_⟩
  · intro h
    exact ⟨ethereum_normalize_eq h, polygon_normalize_eq h, arbitrum_normalize_eq h⟩
  · exact hiff _ _ (fun h => ethereum_normalize_eq h)
      (fun h => ⟨_, (hempty h).1⟩) ethereum_validate_ok_iff
  · exact hiff _ _ (fun h => polygon_normalize_eq h)
      (fun h => ⟨_, (hempty h).2.1⟩) polygon_validate_ok_iff
  · exact hiff _ _ (fun h => arbitrum_normalize_eq h)
      (fun h => ⟨_, (hempty h).2.2⟩) arbitrum_validate_ok_iff
  · intro hlen hhex
    have hne : a ≠ [] := by
      intro hcon
      rw [hcon] at hlen
      simp at hlen
    have hnx : ¬ (startsWithL "0x".data a || startsWithL "0X".data a) = true := by
      intro hcon
      rcases Bool.or_eq_true_iff.mp hcon with h | h
      · obtain ⟨t, rfl⟩ := startsWith2_decomp (by simpa using h)
        have := hhex 'x' (by simp)
        exact absurd this (by decide)
      · obtain ⟨t, rfl⟩ := startsWith2_decomp (by simpa using h)
        have := hhex 'X' (by simp)
        exact absurd this (by decide)
    have hpat : evmOkPattern (evmNormalizeStr a) := by
      unfold evmNormalizeStr
      rw [if_neg hnx]
      refine ⟨lowerStr a, rfl, ?_, ?_⟩
      · unfold lowerStr
        rw [List.length_map]
        exact hlen
      · intro c hc
        obtain ⟨c0, hc0, rfl⟩ := List.mem_map.mp hc
        exact hex_lowerChar (hhex c0 hc0)
    refine ⟨?_, hpat⟩
    rw [hpipe _ _ _ (ethereum_normalize_eq hne), ethereum_validate_ok_iff]
    exact hpat

/-- C5 witness: 40 upper-case hex digits with no prefix are accepted
on all three EVM chains, and the empty string is rejected. -/
theorem c5_evm_address_validation_witness :
    (ethereum_wallet.normalize_address "ABCDEF0123456789ABCDEF0123456789ABCDEF01".data
      >>= ethereum_wallet.validate_address) = .ok () ∧
    ethereum_wallet.normalize_address []
      = .error "Ethereum address cannot be empty" := by
  constructor
  · exact ((c5_evm_address_validation _).2.2.2.2.2 (by decide) (by decide)).1
  · exact ((c5_evm_address_validation []).1 rfl).1

/-- C6: a Tron account response whose `success` flag is false or whose
`data` list is empty yields a successful `"0.000000"` TRX balance (for
a validated address) rather than an error, and an absent `balance`
field on the first record is treated as 0 sun. -/
theorem c6_tron_zero_balance (a : List Char) (r : tron_wallet.AccountResponse)
    (rest : List tron_wallet.AccountData) :
    (r.success = false ∨ r.data = [] →
      tron_wallet.get_balance a (.parsed r)
        = (tron_wallet.validate_address (trimChars a)).map (fun _ =>
            WalletBalance.new (trimChars a) "0.000000".data "tron".data "TRX".data)) ∧
    tron_wallet.get_balance a (.parsed ⟨true, ⟨none⟩ :: rest⟩)
      = (tron_wallet.validate_address (trimChars a)).map (fun _ =>
          WalletBalance.new (trimChars a) "0.000000".data "tron".data "TRX".data) :=
  ⟨tron_get_balance_zero a r, tron_get_balance_absent a rest⟩

set_option maxRecDepth 100000 in
/-- C6 witness: at the (valid) USDT contract address, both the
empty-data response and the absent-balance response produce the
successful zero balance. -/
theorem c6_tron_zero_balance_witness :
    tron_wallet.get_balance "TR7NHqjeKQxGTCi8q8ZY4pL8otSzgjLj6t".data (.parsed ⟨true, []⟩)
      = .ok (WalletBalance.new "TR7NHqjeKQxGTCi8q8ZY4pL8otSzgjLj6t".data
          "0.000000".data "tron".data "TRX".data) ∧
    tron_wallet.get_balance "TR7NHqjeKQxGTCi8q8ZY4pL8otSzgjLj6t".data
        (.parsed ⟨true, [⟨none⟩]⟩)
      = .ok (WalletBalance.new "TR7NHqjeKQxGTCi8q8ZY4pL8otSzgjLj6t".data
          "0.000000".data "tron".data "TRX".data) := by
  have h := c6_tron_zero_balance "TR7NHqjeKQxGTCi8q8ZY4pL8otSzgjLj6t".data ⟨true, []⟩ []
  refine ⟨(h.1 (Or.inr rfl)).trans ?_, h.2.trans ?_⟩ <;> decide

/-- C7: the Bitcoin client computes the satoshi balance as
`funded - spent` saturating at zero (truncated `ℕ` subtraction, which
agrees with `max (f - s) 0` over `ℤ`), feeds it through the `f64`
division by `10^8`, and prints it with a fixed 8 decimal places —
always an integer part, a dot, and exactly 8 fractional digits,
trailing zeros included (unlike the EVM chains' trimmed formatting). -/
theorem c7_bitcoin_balance (a : List Char) (f s : ℕ)
    (_hf : f < 2 ^ 64) (_hs : s < 2 ^ 64) (out : WalletBalance)
    (h : bitcoin_wallet.get_balance a (.parsed ⟨⟨f, s⟩⟩) = .ok out) :
    out.balance = fmtF64 8 (f64Div (f64OfNat (f - s)) (f64OfNat 100000000)) ∧
    ((f - s : ℕ) : ℤ) = max ((f : ℤ) - (s : ℤ)) 0 ∧
    ∃ ip fp, out.balance = ip ++ '.' :: fp ∧ fp.length = 8 ∧
      (∀ c ∈ fp, isDigitChar c = true) ∧ ∀ c ∈ ip, c ≠ '.' := by
  rw [bitcoin_get_balance_parsed] at h
  cases hval : bitcoin_wallet.validate_address a with
  | error e => rw [hval] at h; exact Except.noConfusion h
  | ok u =>
    cases u
    rw [hval] at h
    have h2 : Except.ok (WalletBalance.new a
        (fmtF64 8 (f64Div (f64OfNat (f - s)) (f64OfNat 100000000)))
        "bitcoin".data "BTC".data) = .ok out := h
    have hout := (Except.ok.inj h2).symm
    subst hout
    refine ⟨rfl, natSub_eq_int_max f s, ?_⟩
    obtain ⟨ip, fp, heq, hlen, hfp, hip⟩ := @fmtF64_shape 8 (by norm_num)
      (f64Div (f64OfNat (f - s)) (f64OfNat 100000000))
    exact ⟨ip, fp, heq, hlen, hfp, fun c hc => isDigitChar_ne_dot (hip c hc)⟩

/-- C7 witness at the genesis address with `f = s = 0`: the balance is
`0.00000000`, eight fixed decimals. -/
theorem c7_bitcoin_balance_witness :
    (WalletBalance.new "1A1zP1eP5QGefi2DMPTfTL5SLmv7DivfNa".data
        "0.00000000".data "bitcoin".data "BTC".data).balance
      = fmtF64 8 (f64Div (f64OfNat (0 - 0)) (f64OfNat 100000000)) ∧
    ((0 - 0 : ℕ) : ℤ) = max ((0 : ℤ) - (0 : ℤ)) 0 ∧
    ∃ ip fp, (WalletBalance.new "1A1zP1eP5QGefi2DMPTfTL5SLmv7DivfNa".data
        "0.00000000".data "bitcoin".data "BTC".data).balance = ip ++ '.' :: fp ∧
      fp.length = 8 ∧ (∀ c ∈ fp, isDigitChar c = true) ∧ ∀ c ∈ ip, c ≠ '.' :=
  c7_bitcoin_balance "1A1zP1eP5QGefi2DMPTfTL5SLmv7DivfNa".data 0 0
    (by norm_num) (by norm_num) _ (by decide)

/-- C8: for every chain client, an address the validator (or, on the
EVM chains, the normalizer) rejects makes `get_balance` return exactly
that validation error for **every** possible network response — the
failure short-circuits before the network stage. -/
theorem c8_validation_short_circuits (a : List Char) (e : String) :
    ((ethereum_wallet.normalize_address a >>= ethereum_wallet.validate_address) = .error e →
      ∀ net, ethereum_wallet.get_balance a net = .error e) ∧
    ((polygon_wallet.normalize_address a >>= polygon_wallet.validate_address) = .error e →
      ∀ net, polygon_wallet.get_balance a net = .error e) ∧
    ((arbitrum_wallet.normalize_address a >>= arbitrum_wallet.validate_address) = .error e →
      ∀ net, arbitrum_wallet.get_balance a net = .error e) ∧
    (bitcoin_wallet.validate_address a = .error e →
      ∀ net, bitcoin_wallet.get_balance a net = .error e) ∧
    (tron_wallet.validate_address (trimChars a) = .error e →
      ∀ net, tron_wallet.get_balance a net = .error e) :=
  ⟨fun h net => ethereum_short_circuit h net,
   fun h net => polygon_short_circuit h net,
   fun h net => arbitrum_short_circuit h net,
   fun h net => bitcoin_short_circuit h net,
   fun h net => tron_short_circuit h net⟩

/-- C8 witness: the empty address is rejected by every client, with
the validation error surfacing unchanged for an arbitrary choice of
network outcome (here: a failed send, an HTTP 500, and a bad body). -/
theorem c8_validation_short_circuits_witness :
    ethereum_wallet.get_balance [] .sendFailure
      = .error "Ethereum address cannot be empty" ∧
    polygon_wallet.get_balance [] (.badStatus 500 [])
      = .error "Polygon address cannot be empty" ∧
    arbitrum_wallet.get_balance [] .badJson
      = .error "Arbitrum address cannot be empty" ∧
    bitcoin_wallet.get_balance [] .sendFailure
      = .error "Bitcoin address cannot be empty" ∧
    tron_wallet.get_balance [] .badJson
      = .error "Invalid Tron address: must be 34 chars starting with 'T'" :=
  ⟨(c8_validation_short_circuits [] _).1 (by decide) _,
   (c8_validation_short_circuits [] _).2.1 (by decide) _,
   (c8_validation_short_circuits [] _).2.2.1 (by decide) _,
   (c8_validation_short_circuits [] _).2.2.2.1 (by decide) _,
   (c8_validation_short_circuits [] _).2.2.2.2 (by decide) _⟩

/-- C9: the Bitcoin validator accepts exactly the non-empty strings of
byte length 26 to 62 beginning with `1`, `3` or `bc1`; in particular
the empty string and every string of (byte) length 10 are rejected. -/
theorem c9_bitcoin_validator (a : List Char) :
    (bitcoin_wallet.validate_address a = .ok () ↔
      a ≠ [] ∧ 26 ≤ utf8Len a ∧ utf8Len a ≤ 62 ∧
        (startsWithL "1".data a = true ∨ startsWithL "3".data a = true
          ∨ startsWithL "bc1".data a = true)) ∧
    bitcoin_wallet.validate_address [] = .error "Bitcoin address cannot be empty" ∧
    (utf8Len a = 10 → bitcoin_wallet.validate_address a ≠ .ok ()) := by
  refine ⟨bitcoin_validate_ok_iff a, by decide, ?_⟩
  intro h10 hok
  have := (bitcoin_validate_ok_iff a).mp hok
  omega

/-- C9 witness: a ten-character (ten-byte) string is rejected. -/
theorem c9_bitcoin_validator_witness :
    bitcoin_wallet.validate_address "abcdefghij".data ≠ .ok () :=
  (c9_bitcoin_validator "abcdefghij".data).2.2 (by decide)

/-- Shared consequences of a successfully validated, normalized EVM
address: byte length 42, `0x` prefix, no ASCII upper-case letter. -/
theorem evmNormalized_addr_facts {a n : List Char} (hpat : evmOkPattern n)
    (hnn : n = evmNormalizeStr a) :
    utf8Len n = 42 ∧ n.take 2 = ['0', 'x'] ∧
      ∀ c ∈ n, ¬ (65 ≤ c.toNat ∧ c.toNat ≤ 90) := by
  obtain ⟨t, hnt, hlen, hhex⟩ := hpat
  refine ⟨?_, ?_, ?_⟩
  · rw [hnt, utf8Len_cons, utf8Len_cons, utf8Len_hex_eq_length hhex, hlen]
    decide
  · rw [hnt]
    rfl
  · intro c hc
    rw [hnn] at hc
    unfold evmNormalizeStr at hc
    split_ifs at hc
    · obtain ⟨c0, hc0, rfl⟩ := List.mem_map.mp hc
      exact lowerChar_not_upper c0
    · rcases List.mem_cons.mp hc with rfl | hc'
      · decide
      · rcases List.mem_cons.mp hc' with rfl | hc''
        · decide
        · obtain ⟨c0, hc0, rfl⟩ := List.mem_map.mp hc''
          exact lowerChar_not_upper c0

/-- C10: whenever any of the three EVM-chain clients (Ethereum,
Polygon, Arbitrum) succeeds, the `address` field of the returned
balance is the normalized form of the caller's input — it is what that
client's `normalize_address` produced, is 42 bytes long, starts with
`0x`, and contains no ASCII upper-case letter — even if the caller
passed upper-case digits, a `0X` prefix, or no prefix. -/
theorem c10_evm_returns_normalized (a : List Char) (out : WalletBalance) :
    (∀ net, ethereum_wallet.get_balance a net = .ok out →
      ethereum_wallet.normalize_address a = .ok out.address ∧
      utf8Len out.address = 42 ∧ out.address.take 2 = ['0', 'x'] ∧
      ∀ c ∈ out.address, ¬ (65 ≤ c.toNat ∧ c.toNat ≤ 90)) ∧
    (∀ net, polygon_wallet.get_balance a net = .ok out →
      polygon_wallet.normalize_address a = .ok out.address ∧
      utf8Len out.address = 42 ∧ out.address.take 2 = ['0', 'x'] ∧
      ∀ c ∈ out.address, ¬ (65 ≤ c.toNat ∧ c.toNat ≤ 90)) ∧
    (∀ net, arbitrum_wallet.get_balance a net = .ok out →
      arbitrum_wallet.normalize_address a = .ok out.address ∧
      utf8Len out.address = 42 ∧ out.address.take 2 = ['0', 'x'] ∧
      ∀ c ∈ out.address, ¬ (65 ≤ c.toNat ∧ c.toNat ≤ 90)) := by
  refine ⟨?_, ?_, ?_⟩
  · intro net h
    obtain ⟨n, hnorm, hval, haddr⟩ := ethereum_get_balance_inv h
    rw [haddr]
    have hne : a ≠ [] := by
      intro hcon
      subst hcon
      exact Except.noConfusion hnorm
    have hnn : n = evmNormalizeStr a := by
      have := ethereum_normalize_eq hne
      rw [hnorm] at this
      exact Except.ok.inj this
    obtain ⟨h42, hpre, hup⟩ :=
      evmNormalized_addr_facts ((ethereum_validate_ok_iff n).mp hval) hnn
    exact ⟨hnorm, h42, hpre, hup⟩
  · intro net h
    obtain ⟨n, hnorm, hval, haddr⟩ := polygon_get_balance_inv h
    rw [haddr]
    have hne : a ≠ [] := by
      intro hcon
      subst hcon
      exact Except.noConfusion hnorm
    have hnn : n = evmNormalizeStr a := by
      have := polygon_normalize_eq hne
      rw [hnorm] at this
      exact Except.ok.inj this
    obtain ⟨h42, hpre, hup⟩ :=
      evmNormalized_addr_facts ((polygon_validate_ok_iff n).mp hval) hnn
    exact ⟨hnorm, h42, hpre, hup⟩
  · intro net h
    obtain ⟨n, hnorm, hval, haddr⟩ := arbitrum_get_balance_inv h
    rw [haddr]
    have hne : a ≠ [] := by
      intro hcon
      subst hcon
      exact Except.noConfusion hnorm
    have hnn : n = evmNormalizeStr a := by
      have := arbitrum_normalize_eq hne
      rw [hnorm] at this
      exact Except.ok.inj this
    obtain ⟨h42, hpre, hup⟩ :=
      evmNormalized_addr_facts ((arbitrum_validate_ok_iff n).mp hval) hnn
    exact ⟨hnorm, h42, hpre, hup⟩

/-- C10 witness: an input with a `0X` prefix and upper-case hex digits
comes back lower-cased and `0x`-prefixed in the `address` field, on
each of the Ethereum, Polygon and Arbitrum clients. -/
theorem c10_evm_returns_normalized_witness :
    (ethereum_wallet.normalize_address "0XABCDEF0123456789ABCDEF0123456789ABCDEF01".data
      = .ok (WalletBalance.new "0xabcdef0123456789abcdef0123456789abcdef01".data
          "0".data "ethereum".data "ETH".data).address ∧
    utf8Len (WalletBalance.new "0xabcdef0123456789abcdef0123456789abcdef01".data
      "0".data "ethereum".data "ETH".data).address = 42 ∧
    (WalletBalance.new "0xabcdef0123456789abcdef0123456789abcdef01".data
      "0".data "ethereum".data "ETH".data).address.take 2 = ['0', 'x'] ∧
    ∀ c ∈ (WalletBalance.new "0xabcdef0123456789abcdef0123456789abcdef01".data
      "0".data "ethereum".data "ETH".data).address, ¬ (65 ≤ c.toNat ∧ c.toNat ≤ 90)) ∧
    (polygon_wallet.normalize_address "0XABCDEF0123456789ABCDEF0123456789ABCDEF01".data
      = .ok (WalletBalance.new "0xabcdef0123456789abcdef0123456789abcdef01".data
          "0".data "polygon".data "MATIC".data).address ∧
    utf8Len (WalletBalance.new "0xabcdef0123456789abcdef0123456789abcdef01".data
      "0".data "polygon".data "MATIC".data).address = 42 ∧
    (WalletBalance.new "0xabcdef0123456789abcdef0123456789abcdef01".data
      "0".data "polygon".data "MATIC".data).address.take 2 = ['0', 'x'] ∧
    ∀ c ∈ (WalletBalance.new "0xabcdef0123456789abcdef0123456789abcdef01".data
      "0".data "polygon".data "MATIC".data).address, ¬ (65 ≤ c.toNat ∧ c.toNat ≤ 90)) ∧
    (arbitrum_wallet.normalize_address "0XABCDEF0123456789ABCDEF0123456789ABCDEF01".data
      = .ok (WalletBalance.new "0xabcdef0123456789abcdef0123456789abcdef01".data
          "0".data "arbitrum".data "ETH".data).address ∧
    utf8Len (WalletBalance.new "0xabcdef0123456789abcdef0123456789abcdef01".data
      "0".data "arbitrum".data "ETH".data).address = 42 ∧
    (WalletBalance.new "0xabcdef0123456789abcdef0123456789abcdef01".data
      "0".data "arbitrum".data "ETH".data).address.take 2 = ['0', 'x'] ∧
    ∀ c ∈ (WalletBalance.new "0xabcdef0123456789abcdef0123456789abcdef01".data
      "0".data "arbitrum".data "ETH".data).address, ¬ (65 ≤ c.toNat ∧ c.toNat ≤ 90)) :=
  ⟨(c10_evm_returns_normalized "0XABCDEF0123456789ABCDEF0123456789ABCDEF01".data
      (WalletBalance.new "0xabcdef0123456789abcdef0123456789abcdef01".data
        "0".data "ethereum".data "ETH".data)).1
    (.parsed ⟨some "0x0".data, none⟩) (by decide),
   (c10_evm_returns_normalized "0XABCDEF0123456789ABCDEF0123456789ABCDEF01".data
      (WalletBalance.new "0xabcdef0123456789abcdef0123456789abcdef01".data
        "0".data "polygon".data "MATIC".data)).2.1
    (.parsed ⟨some "0x0".data, none⟩) (by decide),
   (c10_evm_returns_normalized "0XABCDEF0123456789ABCDEF0123456789ABCDEF01".data
      (WalletBalance.new "0xabcdef0123456789abcdef0123456789abcdef01".data
        "0".data "arbitrum".data "ETH".data)).2.2
    (.parsed ⟨some "0x0".data, none⟩) (by decide)⟩
